import Mathlib

/-
Verification development for the simple-python3-email-client repository
(single source file email_client_wx.py).  The account store, the message
body extraction, the IMAP refresh loop, the SMTP compose flow and the
account-management operations are shallowly embedded as executable Lean
definitions, translated from the Python source, and the specification
claims are settled as theorems about those definitions.
-/

namespace EmailClient

/-! ## Python string primitives

Strings are modelled through their character lists.  The helper
functions below model the pieces of the Python standard library that the
source code uses: str.strip (ASCII whitespace; the full Python version
also strips non-ASCII unicode whitespace, which no claim exercises),
str.split on a separator character, and the decimal core of int() / str()
on integers (the Python int() additionally accepts underscores between
digits and unicode digits, which again no claim exercises).
-/

/-- Predicate for the ASCII whitespace characters removed by str.strip. -/
def isPySpace (c : Char) : Bool :=
  c = ' ' || c = '\t' || c = '\n' || c = '\r' || c = '\x0b' || c = '\x0c'

/-- Model of str.lstrip on character lists. -/
def lstripC (l : List Char) : List Char := l.dropWhile isPySpace

/-- Model of str.rstrip on character lists. -/
def rstripC (l : List Char) : List Char := (l.reverse.dropWhile isPySpace).reverse

/-- Model of str.strip on character lists. -/
def pyStripC (l : List Char) : List Char := lstripC (rstripC l)

/-- Model of str.strip on strings. -/
def pyStrip (s : String) : String := String.mk (pyStripC s.data)

/-- Model of str.split with a one-character separator (empty pieces kept),
as used for splitting a file into lines and a recipient field on commas. -/
def splitCh (c : Char) : List Char → List (List Char)
  | [] => [[]]
  | a :: as =>
    if a = c then [] :: splitCh c as
    else
      match splitCh c as with
      | [] => [[a]]
      | l :: ls => (a :: l) :: ls

/-- Digit character for a value below ten. -/
def digCh (n : Nat) : Char :=
  match n with
  | 0 => '0' | 1 => '1' | 2 => '2' | 3 => '3' | 4 => '4'
  | 5 => '5' | 6 => '6' | 7 => '7' | 8 => '8' | _ => '9'

/-- Numeric value of a digit character. -/
def digVal (c : Char) : Nat := c.toNat - '0'.toNat

/-- Test for a decimal digit character. -/
def isDig (c : Char) : Bool := '0' ≤ c && c ≤ '9'

/-- Value of a digit list read most-significant first. -/
def digitsVal (l : List Char) : Nat := l.foldl (fun n c => 10 * n + digVal c) 0

/-- Decimal digit list of a natural number, as produced by the Python str(). -/
def natToDigits (n : Nat) : List Char :=
  if _h : n < 10 then [digCh n]
  else natToDigits (n / 10) ++ [digCh (n % 10)]
  decreasing_by exact Nat.div_lt_self (by omega) (by omega)

/-- Decimal rendering of a Python integer, as produced by str() on an int. -/
def intToStr (i : Int) : List Char :=
  match i with
  | Int.ofNat n => natToDigits n
  | Int.negSucc n => '-' :: natToDigits (n + 1)

/-- Model of the Python int() constructor on an already stripped string:
an optional sign followed by at least one decimal digit.  A failure
(result none) models the ValueError raised by int() on other inputs. -/
def pyParseInt : List Char → Option Int
  | [] => none
  | c :: rest =>
    if c = '-' then
      if rest ≠ [] ∧ rest.all isDig then some (-(digitsVal rest : Int)) else none
    else if c = '+' then
      if rest ≠ [] ∧ rest.all isDig then some ((digitsVal rest : Int)) else none
    else if (c :: rest).all isDig then some ((digitsVal (c :: rest) : Int)) else none

/-! ## Python dict model

The source keeps accounts and parsed key/value blocks in Python dicts.
A dict is modelled as an association list in insertion order: assignment
to an existing key updates the entry in place, assignment to a fresh key
appends at the end, exactly the ordered-dict semantics of Python 3.
-/

/-- Lookup of a key in an insertion-ordered dict. -/
def dLookup (k : String) : List (String × α) → Option α
  | [] => none
  | p :: ps => if p.1 = k then some p.2 else dLookup k ps

/-- Keys of a dict, in order. -/
def dKeys (d : List (String × α)) : List String := d.map (fun p => p.1)

/-- Model of dict.get with a default value. -/
def dGet (d : List (String × α)) (k : String) (dflt : α) : α :=
  (dLookup k d).getD dflt

/-- Model of dict assignment d[k] = v: update in place or append. -/
def dInsert : List (String × α) → String → α → List (String × α)
  | [], k, v => [(k, v)]
  | p :: ps, k, v => if p.1 = k then (p.1, v) :: ps else p :: dInsert ps k v

/-- Model of del d[k]: remove the entry with the given key. -/
def dRemove : List (String × α) → String → List (String × α)
  | [], _ => []
  | p :: ps, k => if p.1 = k then ps else p :: dRemove ps k

/-! ## AccountConfig (source lines 18-63)

Port numbers are Python ints, modelled as unbounded integers. -/

/-- Account model matching the AccountConfig class: a user-chosen unique
name, credentials, and IMAP/SMTP endpoints. -/
structure AccountConfig where
  name : String
  email : String
  password : String
  imap_server : String
  imap_port : Int
  smtp_server : String
  smtp_port : Int
deriving DecidableEq, Repr

/-- Defaults of the AccountConfig constructor. -/
instance : Inhabited AccountConfig :=
  ⟨{ name := "", email := "", password := "", imap_server := "",
     imap_port := 993, smtp_server := "", smtp_port := 587 }⟩

namespace AccountConfig

/-- Translation of AccountConfig.to_dict: string-only dict for storage. -/
def to_dict (a : AccountConfig) : List (String × String) :=
  [("name", a.name),
   ("email", a.email),
   ("password", a.password),
   ("imap_server", a.imap_server),
   ("imap_port", String.mk (intToStr a.imap_port)),
   ("smtp_server", a.smtp_server),
   ("smtp_port", String.mk (intToStr a.smtp_port))]

/-- Port field reconstruction inside from_dict: the expression
int(d.get(key, dfltStr) or dfltInt).  A missing key yields the default
string, an empty string is falsy and yields the default int, and any
other string goes through int(), whose failure (none) models the
ValueError that propagates out of from_dict. -/
def parsePort (s : String) (dfltInt : Int) : Option Int :=
  if s = "" then some dfltInt else pyParseInt s.data

/-- Translation of AccountConfig.from_dict.  A none result models the
ValueError raised by int() on a malformed port value. -/
def from_dict (d : List (String × String)) : Option AccountConfig :=
  (parsePort (dGet d "imap_port" "993") 993).bind fun ip =>
    (parsePort (dGet d "smtp_port" "587") 587).map fun sp =>
      { name := dGet d "name" ""
        email := dGet d "email" ""
        password := dGet d "password" ""
        imap_server := dGet d "imap_server" ""
        imap_port := ip
        smtp_server := dGet d "smtp_server" ""
        smtp_port := sp }

end AccountConfig

/-! ## Account store (source lines 66-114) -/

/-- Header introducer of an account block in the store file. -/
def headerPre : List Char := "[account ".data

/-- Test replaying line.startswith("[account ") and line.endswith("]"). -/
def isHeaderLine (l : List Char) : Bool :=
  l.take 9 = headerPre && l.getLast? = some ']'

/-- Commit of the block being parsed, replaying the two occurrences of
the snippet: if current_name and current, store from_dict(current).
A none result propagates the ValueError of from_dict. -/
def commitBlock (curName : Option (List Char)) (cur : List (String × String))
    (acc : List (String × AccountConfig)) : Option (List (String × AccountConfig)) :=
  match curName with
  | none => some acc
  | some n =>
    if n ≠ [] ∧ cur ≠ [] then
      (AccountConfig.from_dict cur).map fun a => dInsert acc (String.mk n) a
    else some acc

/-- Line loop of load_all_accounts over the raw lines of the file, with
the running state (current_name, current, accounts). -/
def loadAux : List (List Char) → Option (List Char) → List (String × String) →
    List (String × AccountConfig) → Option (List (String × AccountConfig))
  | [], curName, cur, acc => commitBlock curName cur acc
  | l₀ :: rest, curName, cur, acc =>
    let l := pyStripC l₀
    if l = [] then loadAux rest curName cur acc
    else if isHeaderLine l then
      match commitBlock curName cur acc with
      | none => none
      | some acc' =>
        let n := (l.drop 9).dropLast
        loadAux rest (some n) [("name", String.mk n)] acc'
    else if '=' ∈ l then
      let k := l.takeWhile (fun c => c ≠ '=')
      let v := (l.dropWhile (fun c => c ≠ '=')).drop 1
      loadAux rest curName
        (dInsert cur (String.mk (pyStripC k)) (String.mk (pyStripC v))) acc
    else loadAux rest curName cur acc

/-- Translation of load_all_accounts on the text of an existing store
file: split into lines, run the line loop with empty initial state.  The
none result models a ValueError escaping the load. -/
def load_all_accounts (s : String) : Option (List (String × AccountConfig)) :=
  loadAux (splitCh '\n' s.data) none [] []

/-- Serialization of one account inside save_all_accounts: a section
header from the account name, then every to_dict entry except name as a
key=value line, then a blank separator line. -/
def saveAccountC (a : AccountConfig) : List Char :=
  headerPre ++ a.name.data ++ ']' :: '\n' ::
    ((a.to_dict.filter (fun kv => kv.1 ≠ "name")).map
      (fun kv => kv.1.data ++ '=' :: kv.2.data ++ ['\n'])).flatten
    ++ ['\n']

/-- Translation of save_all_accounts: the text written to the store file. -/
def save_all_accounts (m : List (String × AccountConfig)) : String :=
  String.mk ((m.map (fun p => saveAccountC p.2)).flatten)

/-! ## Well-formed store files

A well-formed store file, in the sense of the external-interface section
of the specification, is a sequence of account blocks: a section header
holding a non-empty account name, followed by key=value lines using the
documented keys (the name is carried only by the header), with blank
separator lines.  Port values may be empty or a decimal integer and
values are free of line breaks. -/

/-- Syntactic account block of a store file. -/
structure StoreBlock where
  name : String
  kvs : List (String × String)
deriving DecidableEq

/-- Rendering of one key=value line (without the newline). -/
def kvLineC (kv : String × String) : List Char := kv.1.data ++ '=' :: kv.2.data

/-- Lines of one rendered block: header, key=value lines, blank separator. -/
def blockLinesC (b : StoreBlock) : List (List Char) :=
  (headerPre ++ b.name.data ++ [']']) :: b.kvs.map kvLineC ++ [[]]

/-- Rendering of a block list into the text of a store file, each line
terminated by a newline. -/
def renderBlocks (bs : List StoreBlock) : String :=
  String.mk ((((bs.map blockLinesC).flatten).map (fun l => l ++ ['\n'])).flatten)

/-- Documented value keys of an account block (name lives in the header). -/
def allowedKeys : List String :=
  ["email", "password", "imap_server", "imap_port", "smtp_server", "smtp_port"]

/-- Absence of line breaks in a string. -/
def noNL (s : String) : Bool := '\n' ∉ s.data

/-- Canonical stored field value: stripping is the identity and the value
holds no line break.  Every string field that load_all_accounts produces
satisfies this. -/
def storedField (s : String) : Prop := pyStrip s = s ∧ noNL s = true

/-- Invariant of one entry of a loaded account dict: the name field
matches the key, the key is a usable section-header argument, and every
string field is in canonical stored form. -/
def AcctInv (p : String × AccountConfig) : Prop :=
  p.2.name = p.1 ∧ p.1 ≠ "" ∧ noNL p.1 = true ∧
    storedField p.2.email ∧ storedField p.2.password ∧
    storedField p.2.imap_server ∧ storedField p.2.smtp_server

/-- Acceptable port value: empty (falls back to the default) or a decimal
integer. -/
def portValOK (v : String) : Bool := v = "" || (pyParseInt v.data).isSome

/-- Well-formedness of one key=value pair of a block. -/
def kvWF (kv : String × String) : Bool :=
  (kv.1 ∈ allowedKeys) && noNL kv.2 &&
    (!(kv.1 = "imap_port" || kv.1 = "smtp_port") || portValOK (pyStrip kv.2))

/-- Well-formedness of one block. -/
def blockWF (b : StoreBlock) : Bool :=
  b.name ≠ "" && noNL b.name && b.kvs.all kvWF

/-- Well-formedness of a block list. -/
def blocksWF (bs : List StoreBlock) : Bool := bs.all blockWF

/-- Well-formed store file: the rendering of a well-formed block list. -/
def WellFormedStore (f : String) : Prop :=
  ∃ bs, blocksWF bs = true ∧ f = renderBlocks bs

/-- Key/value dict that the load loop accumulates for one block: the name
entry from the header, then every key=value line, both sides stripped. -/
def curOf (b : StoreBlock) : List (String × String) :=
  b.kvs.foldl (fun c kv => dInsert c (pyStrip kv.1) (pyStrip kv.2)) [("name", b.name)]

/-- Account parsed from one block (total on well-formed blocks). -/
def blockCfg (b : StoreBlock) : AccountConfig :=
  (AccountConfig.from_dict (curOf b)).getD default

/-- Mapping that loading a rendered block list produces: each block
inserted under its name, later blocks overwriting earlier ones. -/
def loadBlocksResult (bs : List StoreBlock) : List (String × AccountConfig) :=
  bs.foldl (fun m b => dInsert m b.name (blockCfg b)) []

/-- Block that save_all_accounts writes for one account. -/
def acctBlock (a : AccountConfig) : StoreBlock :=
  { name := a.name, kvs := a.to_dict.filter (fun kv => kv.1 ≠ "name") }

/-- Current name of a pending (partially parsed) block. -/
def pendName : Option StoreBlock → Option (List Char)
  | none => none
  | some b => some b.name.data

/-- Current key/value dict of a pending block. -/
def pendCur : Option StoreBlock → List (String × String)
  | none => []
  | some b => curOf b

/-- Accounts dict after committing a pending block. -/
def commitAcc (pend : Option StoreBlock) (acc : List (String × AccountConfig)) :
    List (String × AccountConfig) :=
  match pend with
  | none => acc
  | some b => dInsert acc b.name (blockCfg b)

/-! ## Message body extraction (source lines 140-163)

A parsed email.message.Message is a tree of typed parts.  Byte decoding
with errors="replace" only fails on an unknown character set, so the
decode step is a parameter of type Decoder, where a none result models
the LookupError that the surrounding try/except turns into the
placeholder text. -/

/-- Tree of message parts.  A single part carries the result of
get_payload(decode=True) (none when the payload is undecodable at the
transfer-encoding level); a multipart node carries its subparts and has
no decodable payload of its own. -/
inductive EmailPart where
  | single (ctype : String) (charset : Option String) (payload : Option (List Nat))
  | multi (ctype : String) (charset : Option String) (parts : List EmailPart)

/-- Result of get_content_type(). -/
def contentTypeOf : EmailPart → String
  | .single ct _ _ => ct
  | .multi ct _ _ => ct

/-- Result of get_content_charset(). -/
def charsetOf : EmailPart → Option String
  | .single _ cs _ => cs
  | .multi _ cs _ => cs

/-- Result of get_payload(decode=True): none for a multipart container. -/
def payloadOf : EmailPart → Option (List Nat)
  | .single _ _ p => p
  | .multi _ _ _ => none

/-- Result of is_multipart(). -/
def isMultipart : EmailPart → Bool
  | .single _ _ _ => false
  | .multi _ _ _ => true

mutual
/-- Model of Message.walk(): the part itself, then the subparts in
depth-first order. -/
def walk : EmailPart → List EmailPart
  | .single ct cs p => [.single ct cs p]
  | .multi ct cs ps => .multi ct cs ps :: walkList ps
/-- Walk of a part list, in order. -/
def walkList : List EmailPart → List EmailPart
  | [] => []
  | p :: ps => walk p ++ walkList ps
end

/-- Charset-aware byte decoding with errors="replace": total except for
an unknown character set (none models the raised LookupError). -/
def Decoder : Type := List Nat → String → Option String

/-- Decode step applied to one part, replaying
(part.get_payload(decode=True) or b"").decode(charset or "utf-8",
errors="replace"). -/
def decodePart (dec : Decoder) (p : EmailPart) : Option String :=
  dec ((payloadOf p).getD []) ((charsetOf p).getD "utf-8")

/-- Body of the try block of _extract_plain_text_body; none models an
exception reaching the enclosing except handler. -/
def extractAux (dec : Decoder) (m : EmailPart) : Option String :=
  if isMultipart m then
    match (walk m).find? (fun p => contentTypeOf p == "text/plain") with
    | some p => decodePart dec p
    | none =>
      match walk m with
      | p :: _ => decodePart dec p
      | [] => some ""
  else decodePart dec m

/-- Translation of _extract_plain_text_body. -/
def extract_plain_text_body (dec : Decoder) (m : EmailPart) : String :=
  (extractAux dec m).getD "(Could not decode message body.)"

/-- Concrete decoder for witnesses: code points taken directly from byte
values (adequate for the ASCII inputs used in the witnesses), failing on
any charset outside a fixed known set. -/
def stdDecode : Decoder := fun bytes cs =>
  if cs = "utf-8" || cs = "ascii" || cs = "latin-1" then
    some (String.mk (bytes.map Char.ofNat))
  else none

/-- ASCII bytes of a string, for witness payloads. -/
def asciiBytes (s : String) : List Nat := s.data.map Char.toNat

/-! ## IMAP refresh (source lines 557-633)

The refresh handler is modelled as a function from an abstract account
of the server behaviour to the trace of protocol events it performs and
its outcome.  A none outcome models an exception reaching one of the
two except handlers (the error dialog); the cases connect and starttls
are kept implicit because no claim depends on connection failures. -/

/-- One element of the list that imaplib fetch returns for a message:
either the expected (metadata, bytes) pair, whose bytes parse into a
message, or a data element of another shape (for example a stray bytes
line), on which msg_data[0][1] followed by message_from_bytes raises. -/
inductive FetchItem where
  | pair (headers : List (String × String)) (content : EmailPart)
  | bare

/-- Reply of one FETCH command: the status string and the data list. -/
structure FetchResp where
  status : String
  data : List (Option FetchItem)

/-- Abstract behaviour of the IMAP server for one refresh. -/
structure ImapBehavior where
  loginOk : Bool
  selectOk : Bool
  searchOk : Bool
  ids : List Nat
  fetch : Nat → FetchResp

/-- Protocol events of one refresh. -/
inductive ImapEv where
  | connect
  | login
  | selectInbox
  | search
  | fetchMsg (i : Nat)
  | closeBox
  | logout
deriving DecidableEq

/-- Decoded inbox entry built by the fetch loop. -/
structure FetchedMsg where
  id : Nat
  subject : String
  fromA : String
  toA : String
  body : String
deriving DecidableEq

/-- Header decoder parameter standing for _decode_mime_header, which no
claim constrains; it returns the empty string on a missing header. -/
def HeaderDecoder : Type := Option String → String

/-- Message built from one successfully fetched raw message, replaying
the header decoding (with the no-subject fallback) and the body
extraction. -/
def buildMsg (dec : Decoder) (hdec : HeaderDecoder) (i : Nat)
    (headers : List (String × String)) (content : EmailPart) : FetchedMsg :=
  let subj := hdec (dLookup "Subject" headers)
  { id := i
    subject := if subj = "" then "(no subject)" else subj
    fromA := hdec (dLookup "From" headers)
    toA := hdec (dLookup "To" headers)
    body := extract_plain_text_body dec content }

/-- Predicate on one identifier: its fetch reply has an OK status but a
first data element of an unexpected non-pair shape, on which the body of
the loop raises (msg_data[0][1] indexing plus message_from_bytes). -/
def fetchBare (b : ImapBehavior) (i : Nat) : Bool :=
  (b.fetch i).status == "OK" &&
    match (b.fetch i).data.head? with
    | some (some FetchItem.bare) => true
    | _ => false

/-- Message that one loop iteration contributes: none when the iteration
skips the identifier (bad status or absent data) and also in the raising
shape, which aborts instead. -/
def fetchOutcome (dec : Decoder) (hdec : HeaderDecoder) (b : ImapBehavior)
    (i : Nat) : Option FetchedMsg :=
  if (b.fetch i).status ≠ "OK" then none
  else
    match (b.fetch i).data.head? with
    | some (some (FetchItem.pair hs content)) =>
      some (buildMsg dec hdec i hs content)
    | _ => none

/-- Fetch loop over the (already reversed) identifier slice: the fetch
events issued, the messages kept, and whether an exception aborted the
loop.  A response with a bad status, an empty data list or a None first
element is skipped; a first element of an unexpected shape raises. -/
def fetchLoop (dec : Decoder) (hdec : HeaderDecoder) (b : ImapBehavior) :
    List Nat → List ImapEv × List FetchedMsg × Bool
  | [] => ([], [], false)
  | i :: rest =>
    let r := b.fetch i
    if r.status ≠ "OK" then
      let (evs, msgs, ab) := fetchLoop dec hdec b rest
      (.fetchMsg i :: evs, msgs, ab)
    else
      match r.data.head? with
      | none =>
        let (evs, msgs, ab) := fetchLoop dec hdec b rest
        (.fetchMsg i :: evs, msgs, ab)
      | some none =>
        let (evs, msgs, ab) := fetchLoop dec hdec b rest
        (.fetchMsg i :: evs, msgs, ab)
      | some (some (.pair hs content)) =>
        let (evs, msgs, ab) := fetchLoop dec hdec b rest
        (.fetchMsg i :: evs, buildMsg dec hdec i hs content :: msgs, ab)
      | some (some .bare) => ([.fetchMsg i], [], true)

/-- Last-twenty slice taken by latest_ids = ids[-20:]. -/
def latest20 (ids : List Nat) : List Nat := ids.drop (ids.length - 20)

/-- Outcome of one refresh: the protocol events in order and the message
list of the view, none when an exception reached an except handler. -/
structure RefreshOut where
  events : List ImapEv
  result : Option (List FetchedMsg)
deriving DecidableEq

/-- Translation of the protocol core of on_refresh. -/
def on_refresh (dec : Decoder) (hdec : HeaderDecoder) (b : ImapBehavior) : RefreshOut :=
  if ¬ b.loginOk then ⟨[.connect, .login], none⟩
  else if ¬ b.selectOk then ⟨[.connect, .login, .selectInbox], none⟩
  else if ¬ b.searchOk then ⟨[.connect, .login, .selectInbox, .search], none⟩
  else if b.ids = [] then
    ⟨[.connect, .login, .selectInbox, .search, .closeBox, .logout], some []⟩
  else
    let (evs, msgs, ab) := fetchLoop dec hdec b (latest20 b.ids).reverse
    if ab then ⟨[.connect, .login, .selectInbox, .search] ++ evs, none⟩
    else ⟨[.connect, .login, .selectInbox, .search] ++ evs ++ [.closeBox, .logout],
          some msgs⟩

/-! ## SMTP compose (source lines 652-703) -/

/-- Events of one compose attempt. -/
inductive SmtpEv where
  | errorBox
  | connect
  | login
  | sendmail (rcpts : List String)
  | quitEv
deriving DecidableEq

/-- Outcome of the compose handler: events and the recipient list handed
to sendmail, none when the send was rejected. -/
structure ComposeOut where
  events : List SmtpEv
  sent : Option (List String)
deriving DecidableEq

/-- Translation of the recipient handling of on_compose; the To value of
the dialog is stripped by get_values, then validated and split on commas
before any connection is attempted. -/
def on_compose (toAddr : String) : ComposeOut :=
  let t := pyStrip toAddr
  if t = "" then ⟨[.errorBox], none⟩
  else
    let recipients :=
      ((splitCh ',' t.data).map (fun a => String.mk (pyStripC a))).filter
        (fun a => a ≠ "")
    if recipients = [] then ⟨[.errorBox], none⟩
    else ⟨[.connect, .login, .sendmail recipients, .quitEv], some recipients⟩

/-! ## Account management (source lines 492-552) -/

/-- In-memory state of the frame: the account dict, the active account
(the object held by self.active_account) and the loaded message list. -/
structure ManagerState where
  accounts : List (String × AccountConfig)
  active : Option AccountConfig
  messages : List FetchedMsg

/-- Outcome of on_delete_account: the new state and whether
save_all_accounts persisted the store. -/
structure DeleteOut where
  state : ManagerState
  savedStore : Bool

/-- Translation of on_delete_account for a chosen name. -/
def on_delete_account (st : ManagerState) (selected : String) : DeleteOut :=
  if (dLookup selected st.accounts).isSome then
    let clearView : Bool :=
      match st.active with
      | some a => a.name == selected
      | none => false
    let st1 :=
      if clearView then { st with active := none, messages := [] } else st
    ⟨{ st1 with accounts := dRemove st1.accounts selected }, true⟩
  else ⟨st, false⟩

/-- Translation of the rename path of on_edit_active_account when the
dialog changed only the account name.  The active object is the entry
stored under oldName, so the dialog mutation is visible through the map;
when the new name belongs to another key, the is-not-identity test holds
because one object sits under one key, and the handler reverts the name
field.  Returns the account dict and the name of the active account. -/
def on_edit_active_rename (accounts : List (String × AccountConfig))
    (oldName newName0 : String) : List (String × AccountConfig) × String :=
  match dLookup oldName accounts with
  | none => (accounts, oldName)
  | some a0 =>
    let a1 := { a0 with name := newName0 }
    let accounts1 := dInsert accounts oldName a1
    let newName := if a1.name = "" then oldName else a1.name
    if newName ≠ oldName then
      if (dLookup newName accounts1).isSome then
        (dInsert accounts1 oldName { a1 with name := oldName }, oldName)
      else
        (dInsert (dRemove accounts1 oldName) newName a1, newName)
    else (accounts1, oldName)

/-! ## Helper lemmas: splitting and stripping -/

theorem splitCh_ne_nil (c : Char) (l : List Char) : splitCh c l ≠ [] := by
  induction l with
  | nil => simp [splitCh]
  | cons a as ih =>
    rw [splitCh]
    split
    · simp
    · split <;> simp_all

theorem splitCh_of_not_mem {c : Char} {l : List Char} (h : c ∉ l) :
    splitCh c l = [l] := by
  induction l with
  | nil => rfl
  | cons a as ih =>
    rw [splitCh]
    have ha : a ≠ c := fun e => h (e ▸ List.mem_cons_self a as)
    have has : c ∉ as := fun e => h (List.mem_cons_of_mem a e)
    rw [if_neg ha, ih has]

theorem splitCh_append_cons {c : Char} {xs : List Char} (ys : List Char)
    (h : c ∉ xs) : splitCh c (xs ++ c :: ys) = xs :: splitCh c ys := by
  induction xs with
  | nil => simp [splitCh]
  | cons a as ih =>
    have ha : a ≠ c := fun e => h (e ▸ List.mem_cons_self a as)
    have has : c ∉ as := fun e => h (List.mem_cons_of_mem a e)
    simp only [List.cons_append]
    rw [splitCh, if_neg ha, ih has]

theorem splitCh_flatten_lines {c : Char} {ls : List (List Char)}
    (h : ∀ l ∈ ls, c ∉ l) :
    splitCh c ((ls.map (fun l => l ++ [c])).flatten) = ls ++ [[]] := by
  induction ls with
  | nil => rfl
  | cons l rest ih =>
    have h1 : c ∉ l := h l (List.mem_cons_self l rest)
    have h2 : ∀ x ∈ rest, c ∉ x := fun x hx => h x (List.mem_cons_of_mem l hx)
    simp only [List.map_cons, List.flatten_cons, List.append_assoc,
      List.singleton_append]
    rw [splitCh_append_cons _ h1, ih h2]
    rfl

theorem dropWhile_of_all_false {p : α → Bool} {l : List α}
    (h : ∀ a ∈ l, p a = false) : l.dropWhile p = l := by
  induction l with
  | nil => rfl
  | cons a as ih =>
    rw [List.dropWhile_cons, h a (List.mem_cons_self a as)]
    simp

theorem dropWhile_idem (p : α → Bool) (l : List α) :
    (l.dropWhile p).dropWhile p = l.dropWhile p := by
  induction l with
  | nil => rfl
  | cons a as ih =>
    rw [List.dropWhile_cons]
    split
    · exact ih
    · rw [List.dropWhile_cons]
      simp_all

theorem lstripC_cons {a : Char} {l : List Char} (h : isPySpace a = false) :
    lstripC (a :: l) = a :: l := by
  simp [lstripC, List.dropWhile_cons, h]

theorem rstripC_concat {z : Char} {l : List Char} (h : isPySpace z = false) :
    rstripC (l ++ [z]) = l ++ [z] := by
  simp [rstripC, List.dropWhile_cons, h]

theorem rstripC_append_cons {c : Char} {xs ys : List Char}
    (h : isPySpace c = false) :
    rstripC (xs ++ c :: ys) = xs ++ c :: rstripC ys := by
  unfold rstripC
  rw [List.reverse_append, List.reverse_cons, List.append_assoc,
    List.dropWhile_append]
  split
  · next he =>
    rw [List.isEmpty_iff] at he
    rw [he]
    simp [List.dropWhile_cons, h]
  · next he =>
    simp only [List.reverse_append, List.reverse_cons, List.reverse_reverse,
      List.append_assoc, List.singleton_append]

theorem rstripC_idem (l : List Char) : rstripC (rstripC l) = rstripC l := by
  unfold rstripC
  rw [List.reverse_reverse, dropWhile_idem]

theorem pyStripC_rstripC (l : List Char) : pyStripC (rstripC l) = pyStripC l := by
  unfold pyStripC
  rw [rstripC_idem]

theorem pyStripC_sandwich {a z : Char} {l : List Char}
    (h1 : isPySpace a = false) (h2 : isPySpace z = false) :
    pyStripC (a :: (l ++ [z])) = a :: (l ++ [z]) := by
  unfold pyStripC
  have : a :: (l ++ [z]) = (a :: l) ++ [z] := by simp
  rw [this, rstripC_concat h2, ← this, lstripC_cons h1]

theorem pyStripC_kv {a : Char} {k v : List Char} (h : isPySpace a = false) :
    pyStripC ((a :: k) ++ '=' :: v) = (a :: k) ++ '=' :: rstripC v := by
  unfold pyStripC
  rw [rstripC_append_cons (by decide), List.cons_append, lstripC_cons h]

theorem mem_of_mem_rstripC {x : Char} {l : List Char} (h : x ∈ rstripC l) :
    x ∈ l := by
  unfold rstripC at h
  rw [List.mem_reverse] at h
  have := (List.dropWhile_sublist (l := l.reverse) (p := isPySpace)).mem h
  rwa [List.mem_reverse] at this

theorem mem_of_mem_pyStripC {x : Char} {l : List Char} (h : x ∈ pyStripC l) :
    x ∈ l := by
  unfold pyStripC lstripC at h
  exact mem_of_mem_rstripC ((List.dropWhile_sublist _).mem h)

theorem pyStripC_of_all_nonspace {l : List Char}
    (h : ∀ a ∈ l, isPySpace a = false) : pyStripC l = l := by
  unfold pyStripC lstripC rstripC
  rw [dropWhile_of_all_false (fun a ha => h a (List.mem_reverse.1 ha)),
    List.reverse_reverse, dropWhile_of_all_false h]

theorem dropWhile_head_false {p : α → Bool} {l : List α} {a : α} {t : List α}
    (h : l.dropWhile p = a :: t) : p a = false := by
  induction l with
  | nil => cases h
  | cons b bs ih =>
    rw [List.dropWhile_cons] at h
    split at h
    · exact ih h
    · next hb =>
      injection h with h1 _
      subst h1
      simpa using hb

theorem rstripC_getLast {l : List Char} {a : Char} {t : List Char}
    (h : rstripC l = a :: t) :
    ∃ z, (a :: t).getLast? = some z ∧ isPySpace z = false := by
  unfold rstripC at h
  cases hd : l.reverse.dropWhile isPySpace with
  | nil => rw [hd] at h; cases h
  | cons z zs =>
    refine ⟨z, ?_, dropWhile_head_false hd⟩
    rw [hd] at h
    rw [← h, List.getLast?_reverse]
    rfl

theorem pyStripC_idem (l : List Char) : pyStripC (pyStripC l) = pyStripC l := by
  cases hp : pyStripC l with
  | nil => rfl
  | cons a t =>
    have hlstrip : lstripC (rstripC l) = a :: t := hp
    have ha : isPySpace a = false := dropWhile_head_false hlstrip
    obtain ⟨pre, hpre⟩ : lstripC (rstripC l) <:+ rstripC l := List.dropWhile_suffix _
    rw [hlstrip] at hpre
    cases hr : rstripC l with
    | nil =>
      rw [hr] at hpre
      simp at hpre
    | cons b bs =>
      obtain ⟨z, hz1, hz2⟩ := rstripC_getLast hr
      rw [hr] at hpre
      have hlast : (a :: t).getLast? = some z := by
        have h1 : (pre ++ a :: t).getLast? = (a :: t).getLast? :=
          List.getLast?_append_of_ne_nil pre (by simp)
        rw [hpre, hz1] at h1
        exact h1.symm
      rcases List.eq_nil_or_concat t with rfl | ⟨t0, z0, ht⟩
      · exact pyStripC_of_all_nonspace (by
          intro x hx
          rw [List.mem_singleton.1 hx]
          exact ha)
      · rw [List.concat_eq_append] at ht
        subst ht
        have h2 : (a :: (t0 ++ [z0])).getLast? = some z0 := by
          rw [show a :: (t0 ++ [z0]) = (a :: t0) ++ [z0] by simp]
          exact List.getLast?_concat _
        rw [h2] at hlast
        injection hlast with hz0
        rw [hz0]
        exact pyStripC_sandwich ha hz2

/-! ## Helper lemmas: decimal integers -/

theorem digVal_digCh {n : Nat} (h : n < 10) : digVal (digCh n) = n := by
  interval_cases n <;> rfl

theorem isDig_digCh {n : Nat} (h : n < 10) : isDig (digCh n) = true := by
  interval_cases n <;> rfl

theorem isDig_ne {c : Char} (h : isDig c = true) (d : Char)
    (hd : isDig d = false) : c ≠ d := by
  intro e
  rw [e, hd] at h
  cases h

theorem isDig_not_space {c : Char} (h : isDig c = true) :
    isPySpace c = false := by
  cases hb : isPySpace c
  · rfl
  · have hor : ((((c = ' ' ∨ c = '\t') ∨ c = '\n') ∨ c = '\x0d') ∨ c = '\x0b') ∨
        c = '\x0c' := by
      simpa [isPySpace] using hb
    rcases hor with ((((rfl | rfl) | rfl) | rfl) | rfl) | rfl <;>
      exact absurd h (by decide)

theorem digitsVal_concat (l : List Char) (c : Char) :
    digitsVal (l ++ [c]) = 10 * digitsVal l + digVal c := by
  simp [digitsVal, List.foldl_append]

theorem natToDigits_spec (n : Nat) :
    (natToDigits n).all isDig = true ∧ natToDigits n ≠ [] ∧
      digitsVal (natToDigits n) = n := by
  induction n using Nat.strong_induction_on with
  | _ n ih =>
    rw [natToDigits]
    split
    · next h =>
      refine ⟨by simp [isDig_digCh h], by simp, ?_⟩
      simp [digitsVal, digVal_digCh h]
    · next h =>
      have hlt : n / 10 < n := Nat.div_lt_self (by omega) (by omega)
      obtain ⟨ha, hn, hv⟩ := ih (n / 10) hlt
      refine ⟨?_, by simp, ?_⟩
      · rw [List.all_append, ha]
        simp [isDig_digCh (Nat.mod_lt n (by omega))]
      · rw [digitsVal_concat, hv, digVal_digCh (Nat.mod_lt n (by omega))]
        omega

theorem pyParseInt_intToStr (i : Int) : pyParseInt (intToStr i) = some i := by
  cases i with
  | ofNat n =>
    obtain ⟨ha, hn, hv⟩ := natToDigits_spec n
    show pyParseInt (natToDigits n) = some (Int.ofNat n)
    cases hd : natToDigits n with
    | nil => exact absurd hd hn
    | cons c cs =>
      rw [hd] at ha hv
      have hc : isDig c = true := by
        simpa using List.all_eq_true.1 ha c (List.mem_cons_self c cs)
      rw [pyParseInt, if_neg (isDig_ne hc '-' (by decide)),
        if_neg (isDig_ne hc '+' (by decide)), if_pos ha, hv]
      rfl
  | negSucc n =>
    obtain ⟨ha, hn, hv⟩ := natToDigits_spec (n + 1)
    show pyParseInt ('-' :: natToDigits (n + 1)) = some (Int.negSucc n)
    rw [pyParseInt, if_pos rfl, if_pos ⟨hn, ha⟩, hv, Int.negSucc_eq]
    push_cast
    ring_nf

theorem mem_intToStr {c : Char} {i : Int} (h : c ∈ intToStr i) :
    isDig c = true ∨ c = '-' := by
  cases i with
  | ofNat n =>
    obtain ⟨ha, _, _⟩ := natToDigits_spec n
    exact Or.inl (by simpa using List.all_eq_true.1 ha c (by simpa [intToStr] using h))
  | negSucc n =>
    obtain ⟨ha, _, _⟩ := natToDigits_spec (n + 1)
    rcases (by simpa [intToStr] using h : c = '-' ∨ c ∈ natToDigits (n + 1)) with rfl | hm
    · exact Or.inr rfl
    · exact Or.inl (by simpa using List.all_eq_true.1 ha c hm)

theorem intToStr_ne_nil (i : Int) : intToStr i ≠ [] := by
  cases i with
  | ofNat n => simpa [intToStr] using (natToDigits_spec n).2.1
  | negSucc n => simp [intToStr]

theorem pyStripC_intToStr (i : Int) : pyStripC (intToStr i) = intToStr i := by
  refine pyStripC_of_all_nonspace (fun a ha => ?_)
  rcases mem_intToStr ha with hd | rfl
  · exact isDig_not_space hd
  · rfl

theorem nl_not_mem_intToStr (i : Int) : '\n' ∉ intToStr i := by
  intro h
  rcases mem_intToStr h with hd | hd
  · exact absurd hd (by decide)
  · cases hd

/-! ## Helper lemmas: dict operations -/

theorem dLookup_dInsert_self (d : List (String × α)) (k : String) (v : α) :
    dLookup k (dInsert d k v) = some v := by
  induction d with
  | nil => simp [dInsert, dLookup]
  | cons p ps ih =>
    rw [dInsert]
    split
    · next h => rw [dLookup, if_pos h]
    · next h => rw [dLookup, if_neg h, ih]

theorem dLookup_dInsert_ne {k' k : String} (h : k' ≠ k)
    (d : List (String × α)) (v : α) :
    dLookup k' (dInsert d k v) = dLookup k' d := by
  induction d with
  | nil =>
    show dLookup k' [(k, v)] = none
    rw [dLookup, if_neg (fun e => h e.symm)]
    rfl
  | cons p ps ih =>
    rw [dInsert]
    split
    · next hp =>
      have hne : ¬ ((p.1, v).1 = k') := fun e => h ((e.symm.trans hp))
      rw [dLookup, if_neg hne, dLookup, if_neg (fun e => h (e.symm.trans hp))]
    · next hp =>
      rw [dLookup, dLookup]
      by_cases hq : p.1 = k'
      · rw [if_pos hq, if_pos hq]
      · rw [if_neg hq, if_neg hq]
        exact ih

theorem dLookup_eq_none_iff (d : List (String × α)) (k : String) :
    dLookup k d = none ↔ k ∉ dKeys d := by
  induction d with
  | nil => simp [dLookup, dKeys]
  | cons p ps ih =>
    rw [dLookup]
    unfold dKeys
    simp only [List.map_cons, List.mem_cons]
    by_cases hp : p.1 = k
    · rw [if_pos hp]
      simp [hp]
    · rw [if_neg hp]
      unfold dKeys at ih
      rw [ih]
      constructor
      · rintro hk (he | hm)
        · exact hp he.symm
        · exact hk hm
      · intro hk hm
        exact hk (Or.inr hm)

theorem dLookup_isSome_iff (d : List (String × α)) (k : String) :
    (dLookup k d).isSome = true ↔ k ∈ dKeys d := by
  rw [← Decidable.not_iff_not, ← dLookup_eq_none_iff]
  cases dLookup k d <;> simp

theorem dInsert_of_lookup_none {d : List (String × α)} {k : String}
    (h : dLookup k d = none) (v : α) : dInsert d k v = d ++ [(k, v)] := by
  induction d with
  | nil => rfl
  | cons p ps ih =>
    rw [dLookup] at h
    rw [dInsert]
    split
    · next hp => rw [if_pos hp] at h; cases h
    · next hp => rw [if_neg hp] at h; rw [ih h]; rfl

theorem dInsert_of_lookup_self {d : List (String × α)} {k : String} {v : α}
    (h : dLookup k d = some v) : dInsert d k v = d := by
  induction d with
  | nil => cases h
  | cons p ps ih =>
    rw [dLookup] at h
    rw [dInsert]
    split
    · next hp =>
      rw [if_pos hp] at h
      injection h with hv
      rw [← hv]
    · next hp =>
      rw [if_neg hp] at h
      rw [ih h]

theorem dInsert_dInsert (d : List (String × α)) (k : String) (v w : α) :
    dInsert (dInsert d k v) k w = dInsert d k w := by
  induction d with
  | nil => simp [dInsert]
  | cons p ps ih =>
    rw [dInsert]
    split
    · next h => simp [dInsert, h]
    · next h => rw [dInsert, if_neg h, dInsert, if_neg h, ih]

theorem mem_of_mem_dInsert {d : List (String × α)} {k : String} {v : α}
    {p : String × α} (h : p ∈ dInsert d k v) : p ∈ d ∨ p = (k, v) := by
  induction d with
  | nil =>
    have he : p = (k, v) := by simpa [dInsert] using h
    exact Or.inr he
  | cons q qs ih =>
    rw [dInsert] at h
    split at h
    · next hq =>
      rcases List.mem_cons.1 h with rfl | hm
      · exact Or.inr (by rw [hq])
      · exact Or.inl (List.mem_cons_of_mem q hm)
    · next hq =>
      rcases List.mem_cons.1 h with rfl | hm
      · exact Or.inl (List.mem_cons_self _ _)
      · rcases ih hm with h1 | h1
        · exact Or.inl (List.mem_cons_of_mem q h1)
        · exact Or.inr h1

theorem dKeys_dInsert (d : List (String × α)) (k : String) (v : α) :
    dKeys (dInsert d k v) = if k ∈ dKeys d then dKeys d else dKeys d ++ [k] := by
  induction d with
  | nil => simp [dInsert, dKeys]
  | cons p ps ih =>
    rw [dInsert]
    split
    · next h =>
      have hmem : k ∈ dKeys (p :: ps) := by
        unfold dKeys
        rw [List.map_cons, h]
        exact List.mem_cons_self k _
      rw [if_pos hmem]
      unfold dKeys
      rw [List.map_cons, List.map_cons, h]
    · next h =>
      have hne : k ≠ p.1 := fun e => h e.symm
      by_cases hk : k ∈ dKeys ps
      · have hmem : k ∈ dKeys (p :: ps) := by
          unfold dKeys at hk ⊢
          rw [List.map_cons]
          exact List.mem_cons_of_mem _ hk
        rw [if_pos hmem]
        unfold dKeys at ih hk ⊢
        rw [List.map_cons, List.map_cons]
        rw [if_pos hk] at ih
        rw [ih]
      · have hmem : k ∉ dKeys (p :: ps) := by
          unfold dKeys at hk ⊢
          rw [List.map_cons]
          simp only [List.mem_cons]
          rintro (he | hm)
          · exact hne he
          · exact hk hm
        rw [if_neg hmem]
        unfold dKeys at ih hk ⊢
        rw [List.map_cons, List.map_cons]
        rw [if_neg hk] at ih
        rw [ih, List.cons_append]

theorem nodup_dKeys_dInsert {d : List (String × α)} (h : (dKeys d).Nodup)
    (k : String) (v : α) : (dKeys (dInsert d k v)).Nodup := by
  rw [dKeys_dInsert]
  split
  · exact h
  · next hk => simpa [List.nodup_append] using ⟨h, fun e => hk e⟩

theorem dLookup_dRemove_ne {k' k : String} (h : k' ≠ k)
    (d : List (String × α)) : dLookup k' (dRemove d k) = dLookup k' d := by
  induction d with
  | nil => rfl
  | cons p ps ih =>
    rw [dRemove]
    split
    · next hp =>
      show dLookup k' ps = dLookup k' (p :: ps)
      rw [dLookup, if_neg (fun e => h (e.symm.trans hp))]
    · next hp =>
      rw [dLookup, dLookup]
      by_cases hq : p.1 = k'
      · rw [if_pos hq, if_pos hq]
      · rw [if_neg hq, if_neg hq]
        exact ih

theorem dLookup_dRemove_self {d : List (String × α)} (h : (dKeys d).Nodup)
    (k : String) : dLookup k (dRemove d k) = none := by
  induction d with
  | nil => rfl
  | cons p ps ih =>
    rw [dRemove]
    split
    · next hp =>
      rw [dLookup_eq_none_iff]
      intro hk
      rw [dKeys] at h
      simp only [List.map_cons, List.nodup_cons] at h
      exact h.1 (hp ▸ hk)
    · next hp =>
      rw [dLookup, if_neg hp]
      rw [dKeys] at h
      simp only [List.map_cons, List.nodup_cons] at h
      exact ih h.2

theorem dLookup_foldl_dInsert {β : Type} (f : β → String) (g : β → α)
    (l : List β) (d0 : List (String × α)) (k : String) :
    dLookup k (l.foldl (fun d b => dInsert d (f b) (g b)) d0) =
      ((l.reverse.find? (fun b => f b == k)).map g).or (dLookup k d0) := by
  induction l generalizing d0 with
  | nil => simp
  | cons b l ih =>
    simp only [List.foldl_cons, List.reverse_cons, List.find?_append]
    rw [ih]
    cases hf : l.reverse.find? (fun b => f b == k) with
    | some b' => simp [Option.or]
    | none =>
      cases hb : (f b == k) with
      | true =>
        have hb' : f b = k := by simpa using hb
        rw [show List.find? (fun b => f b == k) [b] = some b from by
          simp [List.find?, hb]]
        simp only [Option.or, Option.map]
        rw [← hb', dLookup_dInsert_self]
      | false =>
        rw [show List.find? (fun b => f b == k) [b] = none from by
          simp [List.find?, hb]]
        simp only [Option.or, Option.map]
        refine dLookup_dInsert_ne (fun e => ?_) d0 (g b)
        rw [e.symm] at hb
        simp at hb

theorem mem_foldl_dInsert {β : Type} {f : β → String} {g : β → α}
    {l : List β} {d0 : List (String × α)} {p : String × α}
    (h : p ∈ l.foldl (fun d b => dInsert d (f b) (g b)) d0) :
    p ∈ d0 ∨ ∃ b ∈ l, p = (f b, g b) := by
  induction l generalizing d0 with
  | nil => exact Or.inl h
  | cons b l ih =>
    rcases ih (by simpa using h) with h1 | h1
    · rcases mem_of_mem_dInsert h1 with h2 | h2
      · exact Or.inl h2
      · exact Or.inr ⟨b, List.mem_cons_self b l, h2⟩
    · obtain ⟨b', hb', he⟩ := h1
      exact Or.inr ⟨b', List.mem_cons_of_mem b hb', he⟩

theorem nodup_dKeys_foldl_dInsert {β : Type} {f : β → String} {g : β → α}
    (l : List β) {d0 : List (String × α)} (h : (dKeys d0).Nodup) :
    (dKeys (l.foldl (fun d b => dInsert d (f b) (g b)) d0)).Nodup := by
  induction l generalizing d0 with
  | nil => exact h
  | cons b l ih => exact ih (nodup_dKeys_dInsert h (f b) (g b))

theorem foldl_dInsert_of_fresh {l d0 : List (String × α)}
    (h1 : ∀ p ∈ l, p.1 ∉ dKeys d0) (h2 : (dKeys l).Nodup) :
    l.foldl (fun d p => dInsert d p.1 p.2) d0 = d0 ++ l := by
  induction l generalizing d0 with
  | nil => simp
  | cons p ps ih =>
    simp only [List.foldl_cons]
    rw [dInsert_of_lookup_none
      ((dLookup_eq_none_iff d0 p.1).2 (h1 p (List.mem_cons_self p ps) ))]
    have hk : ∀ q ∈ ps, q.1 ∉ dKeys (d0 ++ [(p.1, p.2)]) := by
      intro q hq
      have hq1 : q.1 ∉ dKeys d0 := h1 q (List.mem_cons_of_mem p hq)
      have hq2 : q.1 ≠ p.1 := by
        intro e
        rw [dKeys] at h2
        simp only [List.map_cons, List.nodup_cons] at h2
        exact h2.1 (e ▸ List.mem_map_of_mem (fun r => r.1) hq)
      unfold dKeys at hq1 ⊢
      rw [List.map_append]
      simp only [List.mem_append, List.map_cons, List.map_nil,
        List.mem_singleton]
      rintro (hm | he)
      · exact hq1 hm
      · exact hq2 he
    have hn : (dKeys ps).Nodup := by
      rw [dKeys] at h2 ⊢
      simpa using (List.nodup_cons.1 (by simpa using h2)).2
    rw [ih hk hn, List.append_assoc]
    rfl

/-! ## Helper lemmas: header and key=value lines of the store format -/

theorem headerPre_eq : headerPre = '[' :: "account ".data := rfl

theorem pyStripC_headerLine (name : List Char) :
    pyStripC (headerPre ++ name ++ [']']) = headerPre ++ name ++ [']'] := by
  have hsh : headerPre ++ name ++ [']'] = '[' :: (("account ".data ++ name) ++ [']']) := by
    rw [headerPre_eq]
    simp
  rw [hsh, pyStripC_sandwich (by decide) (by decide)]

theorem headerLine_ne_nil (name : List Char) : headerPre ++ name ++ [']'] ≠ [] := by
  simp [headerPre_eq]

theorem isHeaderLine_render (name : List Char) :
    isHeaderLine (headerPre ++ name ++ [']']) = true := by
  unfold isHeaderLine
  have h1 : (headerPre ++ name ++ [']']).take 9 = headerPre := by
    rw [List.append_assoc]
    exact List.take_left headerPre _
  have h2 : (headerPre ++ name ++ [']']).getLast? = some ']' :=
    List.getLast?_concat _
  rw [h1, h2]
  simp

theorem headerName_render (name : List Char) :
    ((headerPre ++ name ++ [']']).drop 9).dropLast = name := by
  have h1 : (headerPre ++ name ++ [']']).drop 9 = name ++ [']'] := by
    rw [List.append_assoc]
    exact List.drop_left headerPre _
  rw [h1, List.dropLast_concat]

theorem isHeaderLine_cons_ne {a : Char} {rest : List Char} (h : a ≠ '[') :
    isHeaderLine (a :: rest) = false := by
  unfold isHeaderLine
  have ht : (a :: rest).take 9 = a :: rest.take 8 := rfl
  rw [ht, headerPre_eq]
  have hne : (a :: rest.take 8) ≠ ('[' :: "account ".data) := by
    intro e
    injection e with e1 _
    exact h e1
  simp [hne]

theorem allowedKey_shape {k : String} (hk : k ∈ allowedKeys) :
    ∃ a t, k.data = a :: t ∧ a ≠ '[' ∧ isPySpace a = false ∧
      ('=' ∉ k.data) ∧ ('\n' ∉ k.data) ∧ pyStripC k.data = k.data ∧
      k ≠ "name" := by
  fin_cases hk <;>
    exact ⟨_, _, rfl, by decide, by decide, by decide, by decide, by decide,
      by decide⟩

theorem takeWhile_append_all {p : α → Bool} {xs : List α} {a : α} (ys : List α)
    (hxs : ∀ x ∈ xs, p x = true) (ha : p a = false) :
    (xs ++ a :: ys).takeWhile p = xs := by
  induction xs with
  | nil => simp [List.takeWhile_cons, ha]
  | cons b bs ih =>
    have hb := hxs b (List.mem_cons_self b bs)
    rw [List.cons_append, List.takeWhile_cons, hb]
    simp only [if_true]
    rw [ih (fun x hx => hxs x (List.mem_cons_of_mem b hx))]

theorem dropWhile_append_all {p : α → Bool} {xs : List α} {a : α} (ys : List α)
    (hxs : ∀ x ∈ xs, p x = true) (ha : p a = false) :
    (xs ++ a :: ys).dropWhile p = a :: ys := by
  induction xs with
  | nil => simp [List.dropWhile_cons, ha]
  | cons b bs ih =>
    have hb := hxs b (List.mem_cons_self b bs)
    rw [List.cons_append, List.dropWhile_cons, hb]
    simp only [if_true]
    exact ih (fun x hx => hxs x (List.mem_cons_of_mem b hx))

/-! ## Loading a rendered store file -/

theorem loadAux_kvs (kvs : List (String × String)) (hkv : kvs.all kvWF = true)
    (rest : List (List Char)) (curName : Option (List Char))
    (cur : List (String × String)) (acc : List (String × AccountConfig)) :
    loadAux ((kvs.map kvLineC) ++ rest) curName cur acc =
      loadAux rest curName
        (kvs.foldl (fun c kv => dInsert c (pyStrip kv.1) (pyStrip kv.2)) cur)
        acc := by
  induction kvs generalizing cur with
  | nil => simp
  | cons kv kvs' ih =>
    rw [List.all_cons, Bool.and_eq_true] at hkv
    have hwf : kvWF kv = true := hkv.1
    have hkv' : kvs'.all kvWF = true := hkv.2
    have hk1 : kv.1 ∈ allowedKeys := by
      unfold kvWF at hwf
      rw [Bool.and_eq_true, Bool.and_eq_true] at hwf
      exact of_decide_eq_true hwf.1.1
    obtain ⟨a, t, hdata, hlb, hsp, heq, _, hstable, _⟩ := allowedKey_shape hk1
    have hstrip : pyStripC (kvLineC kv) = kv.1.data ++ '=' :: rstripC kv.2.data := by
      unfold kvLineC
      rw [hdata]
      exact pyStripC_kv hsp
    have hnn : kv.1.data ++ '=' :: rstripC kv.2.data ≠ [] := by
      rw [hdata]
      simp
    have hhdr : isHeaderLine (kv.1.data ++ '=' :: rstripC kv.2.data) = false := by
      rw [hdata, List.cons_append]
      exact isHeaderLine_cons_ne hlb
    have hmem : '=' ∈ kv.1.data ++ '=' :: rstripC kv.2.data := by
      rw [List.mem_append]
      exact Or.inr (List.mem_cons_self _ _)
    have hall : ∀ x ∈ kv.1.data, (fun c => decide (c ≠ '=')) x = true := by
      intro x hx
      have hxe : x ≠ '=' := fun e => heq (e ▸ hx)
      simpa using hxe
    have htake : (kv.1.data ++ '=' :: rstripC kv.2.data).takeWhile
        (fun c => c ≠ '=') = kv.1.data :=
      takeWhile_append_all _ hall (by decide)
    have hdrop : ((kv.1.data ++ '=' :: rstripC kv.2.data).dropWhile
        (fun c => c ≠ '=')).drop 1 = rstripC kv.2.data := by
      rw [dropWhile_append_all _ hall (by decide)]
      rfl
    have hkey : String.mk (pyStripC kv.1.data) = kv.1 := by
      rw [hstable]
    have hval : String.mk (pyStripC (rstripC kv.2.data)) = pyStrip kv.2 := by
      rw [pyStripC_rstripC]
      rfl
    rw [List.map_cons, List.cons_append, loadAux]
    simp only [hstrip, hnn, hhdr, hmem, htake, hdrop, hkey, hval,
      Bool.false_eq_true, if_false, if_pos, if_neg, ite_true, ite_false,
      not_false_eq_true]
    have hpk : pyStrip kv.1 = kv.1 := by
      unfold pyStrip
      rw [hstable]
    rw [List.foldl_cons, hpk]
    exact ih hkv' _

theorem pyStrip_idem (s : String) : pyStrip (pyStrip s) = pyStrip s := by
  unfold pyStrip
  rw [show (String.mk (pyStripC s.data)).data = pyStripC s.data from rfl,
    pyStripC_idem]

theorem noNL_pyStrip {s : String} (h : noNL s = true) :
    noNL (pyStrip s) = true := by
  unfold noNL at h ⊢
  simp only [decide_eq_true_eq] at h ⊢
  intro hm
  exact h (mem_of_mem_pyStripC hm)

theorem storedField_pyStrip {s : String} (h : noNL s = true) :
    storedField (pyStrip s) :=
  ⟨pyStrip_idem s, noNL_pyStrip h⟩

theorem storedField_empty : storedField "" := by
  constructor
  · rfl
  · rfl

theorem allowedKey_pyStrip {k : String} (hk : k ∈ allowedKeys) :
    pyStrip k = k := by
  obtain ⟨a, t, _, _, _, _, _, hstable, _⟩ := allowedKey_shape hk
  unfold pyStrip
  rw [hstable]

theorem kvWF_fields {kv : String × String} (h : kvWF kv = true) :
    kv.1 ∈ allowedKeys ∧ noNL kv.2 = true ∧
      ((kv.1 = "imap_port" ∨ kv.1 = "smtp_port") →
        portValOK (pyStrip kv.2) = true) := by
  unfold kvWF at h
  rw [Bool.and_eq_true, Bool.and_eq_true] at h
  obtain ⟨⟨h1, h2⟩, h3⟩ := h
  refine ⟨of_decide_eq_true h1, h2, ?_⟩
  intro hor
  rw [Bool.or_eq_true] at h3
  rcases h3 with h3 | h3
  · rw [Bool.not_eq_true', Bool.or_eq_false_iff] at h3
    rcases hor with he | he
    · rw [he] at h3
      simpa using h3.1
    · rw [he] at h3
      simpa using h3.2
  · exact h3

theorem blockWF_fields {b : StoreBlock} (h : blockWF b = true) :
    b.name ≠ "" ∧ noNL b.name = true ∧ ∀ kv ∈ b.kvs, kvWF kv = true := by
  unfold blockWF at h
  rw [Bool.and_eq_true, Bool.and_eq_true] at h
  exact ⟨by simpa using h.1.1, h.1.2, List.all_eq_true.1 h.2⟩

theorem blocksWF_cons {b : StoreBlock} {bs : List StoreBlock}
    (h : blocksWF (b :: bs) = true) : blockWF b = true ∧ blocksWF bs = true := by
  unfold blocksWF at h ⊢
  rw [List.all_cons, Bool.and_eq_true] at h
  exact h

theorem parsePort_isSome {v : String} (h : portValOK v = true) (dflt : Int) :
    (AccountConfig.parsePort v dflt).isSome = true := by
  unfold AccountConfig.parsePort
  unfold portValOK at h
  by_cases hv : v = ""
  · rw [if_pos hv]
    rfl
  · rw [if_neg hv]
    rw [Bool.or_eq_true] at h
    rcases h with h | h
    · exact absurd (of_decide_eq_true h) hv
    · exact h

theorem dLookup_curOf (b : StoreBlock) (k : String) :
    dLookup k (curOf b) =
      ((b.kvs.reverse.find? (fun kv => pyStrip kv.1 == k)).map
        (fun kv => pyStrip kv.2)).or (dLookup k [("name", b.name)]) := by
  unfold curOf
  exact dLookup_foldl_dInsert (fun kv : String × String => pyStrip kv.1)
    (fun kv : String × String => pyStrip kv.2) b.kvs [("name", b.name)] k

theorem find?_curOf_key {b : StoreBlock} (hb : blockWF b = true) (k : String) :
    b.kvs.reverse.find? (fun kv => pyStrip kv.1 == k) = none ∨
    ∃ kv ∈ b.kvs, kv.1 = k ∧
      b.kvs.reverse.find? (fun kv => pyStrip kv.1 == k) = some kv := by
  cases hf : b.kvs.reverse.find? (fun kv => pyStrip kv.1 == k) with
  | none => exact Or.inl rfl
  | some kv =>
    have hkv : kv ∈ b.kvs := List.mem_reverse.1 (List.mem_of_find?_eq_some hf)
    have hbeq : pyStrip kv.1 = k := by simpa using List.find?_some hf
    have hkey : kv.1 ∈ allowedKeys :=
      (kvWF_fields ((blockWF_fields hb).2.2 kv hkv)).1
    exact Or.inr ⟨kv, hkv, by rw [← allowedKey_pyStrip hkey, hbeq], rfl⟩

theorem dGet_curOf_name {b : StoreBlock} (hb : blockWF b = true) :
    dGet (curOf b) "name" "" = b.name := by
  unfold dGet
  rw [dLookup_curOf]
  have hf : b.kvs.reverse.find? (fun kv => pyStrip kv.1 == "name") = none := by
    rw [List.find?_eq_none]
    intro kv hkv
    have hkey : kv.1 ∈ allowedKeys :=
      (kvWF_fields ((blockWF_fields hb).2.2 kv (List.mem_reverse.1 hkv))).1
    obtain ⟨_, _, _, _, _, _, _, _, hname⟩ := allowedKey_shape hkey
    rw [allowedKey_pyStrip hkey]
    simpa using hname
  rw [hf]
  show (dLookup "name" [("name", b.name)]).getD "" = b.name
  rw [dLookup, if_pos rfl]
  rfl

theorem dGet_curOf_field {b : StoreBlock} (hb : blockWF b = true) {k : String}
    (hk : k ≠ "name") (dflt : String) :
    dGet (curOf b) k dflt = dflt ∨
    ∃ kv ∈ b.kvs, kv.1 = k ∧ dGet (curOf b) k dflt = pyStrip kv.2 := by
  rcases find?_curOf_key hb k with hf | ⟨kv, hkv, hkey, hf⟩
  · left
    unfold dGet
    rw [dLookup_curOf, hf]
    show (dLookup k [("name", b.name)]).getD dflt = dflt
    rw [dLookup, if_neg (fun e => hk e.symm)]
    rfl
  · right
    refine ⟨kv, hkv, hkey, ?_⟩
    unfold dGet
    rw [dLookup_curOf, hf]
    rfl

theorem storedField_dGet_curOf {b : StoreBlock} (hb : blockWF b = true)
    {k : String} (hk : k ≠ "name") :
    storedField (dGet (curOf b) k "") := by
  rcases dGet_curOf_field hb hk "" with h | ⟨kv, hkv, _, h⟩
  · rw [h]
    exact storedField_empty
  · rw [h]
    exact storedField_pyStrip (kvWF_fields ((blockWF_fields hb).2.2 kv hkv)).2.1

theorem parsePort_dGet_curOf {b : StoreBlock} (hb : blockWF b = true)
    {k : String} (hport : k = "imap_port" ∨ k = "smtp_port") {ds : String}
    {di : Int} (hds : (AccountConfig.parsePort ds di).isSome = true) :
    (AccountConfig.parsePort (dGet (curOf b) k ds) di).isSome = true := by
  have hk : k ≠ "name" := by rcases hport with rfl | rfl <;> decide
  rcases dGet_curOf_field hb hk ds with h | ⟨kv, hkv, hkey, h⟩
  · rw [h]
    exact hds
  · rw [h]
    exact parsePort_isSome
      ((kvWF_fields ((blockWF_fields hb).2.2 kv hkv)).2.2 (hkey ▸ hport)) di


theorem from_dict_curOf {b : StoreBlock} (hb : blockWF b = true) :
    AccountConfig.from_dict (curOf b) = some (blockCfg b) ∧
    (blockCfg b).name = b.name ∧
    storedField (blockCfg b).email ∧
    storedField (blockCfg b).password ∧
    storedField (blockCfg b).imap_server ∧
    storedField (blockCfg b).smtp_server ∧
    AccountConfig.parsePort (dGet (curOf b) "imap_port" "993") 993 =
      some (blockCfg b).imap_port ∧
    AccountConfig.parsePort (dGet (curOf b) "smtp_port" "587") 587 =
      some (blockCfg b).smtp_port := by
  have hip : (AccountConfig.parsePort (dGet (curOf b) "imap_port" "993")
      993).isSome = true :=
    parsePort_dGet_curOf hb (Or.inl rfl) (by decide)
  have hsp : (AccountConfig.parsePort (dGet (curOf b) "smtp_port" "587")
      587).isSome = true :=
    parsePort_dGet_curOf hb (Or.inr rfl) (by decide)
  obtain ⟨ip, hip'⟩ := Option.isSome_iff_exists.1 hip
  obtain ⟨sp, hsp'⟩ := Option.isSome_iff_exists.1 hsp
  have hfd : AccountConfig.from_dict (curOf b) = some
      { name := dGet (curOf b) "name" ""
        email := dGet (curOf b) "email" ""
        password := dGet (curOf b) "password" ""
        imap_server := dGet (curOf b) "imap_server" ""
        imap_port := ip
        smtp_server := dGet (curOf b) "smtp_server" ""
        smtp_port := sp } := by
    unfold AccountConfig.from_dict
    rw [hip', hsp']
    rfl
  have hcfg : blockCfg b =
      { name := dGet (curOf b) "name" ""
        email := dGet (curOf b) "email" ""
        password := dGet (curOf b) "password" ""
        imap_server := dGet (curOf b) "imap_server" ""
        imap_port := ip
        smtp_server := dGet (curOf b) "smtp_server" ""
        smtp_port := sp } := by
    unfold blockCfg
    rw [hfd]
    rfl
  rw [hcfg, hfd]
  refine ⟨rfl, dGet_curOf_name hb, ?_, ?_, ?_, ?_, ?_, ?_⟩
  · exact storedField_dGet_curOf hb (by decide)
  · exact storedField_dGet_curOf hb (by decide)
  · exact storedField_dGet_curOf hb (by decide)
  · exact storedField_dGet_curOf hb (by decide)
  · exact hip'
  · exact hsp'

theorem dInsert_ne_nil (d : List (String × α)) (k : String) (v : α) :
    dInsert d k v ≠ [] := by
  cases d with
  | nil => simp [dInsert]
  | cons p ps =>
    rw [dInsert]
    split <;> simp

theorem curOf_ne_nil (b : StoreBlock) : curOf b ≠ [] := by
  unfold curOf
  have hgen : ∀ (kvs : List (String × String)) (d0 : List (String × String)),
      d0 ≠ [] →
      kvs.foldl (fun c kv => dInsert c (pyStrip kv.1) (pyStrip kv.2)) d0 ≠ [] := by
    intro kvs
    induction kvs with
    | nil => exact fun d0 h => h
    | cons kv kvs ih =>
      intro d0 _
      exact ih _ (dInsert_ne_nil d0 (pyStrip kv.1) (pyStrip kv.2))
  exact hgen b.kvs _ (by simp)

theorem commitBlock_pend (pend : Option StoreBlock)
    (hpend : ∀ pb, pend = some pb → blockWF pb = true)
    (acc : List (String × AccountConfig)) :
    commitBlock (pendName pend) (pendCur pend) acc = some (commitAcc pend acc) := by
  cases pend with
  | none => rfl
  | some b =>
    have hb := hpend b rfl
    have h1 : b.name.data ≠ [] := by
      intro e
      apply (blockWF_fields hb).1
      have hmk : b.name = String.mk b.name.data := rfl
      rw [hmk, e]
    show commitBlock (some b.name.data) (curOf b) acc =
      some (dInsert acc b.name (blockCfg b))
    have hstep : commitBlock (some b.name.data) (curOf b) acc =
        if b.name.data ≠ [] ∧ curOf b ≠ [] then
          Option.map (fun a => dInsert acc (String.mk b.name.data) a)
            (AccountConfig.from_dict (curOf b))
        else some acc := rfl
    rw [hstep, if_pos ⟨h1, curOf_ne_nil b⟩, (from_dict_curOf hb).1]
    rfl

theorem loadAux_blank (rest : List (List Char)) (cn : Option (List Char))
    (cur : List (String × String)) (acc : List (String × AccountConfig)) :
    loadAux ([] :: rest) cn cur acc = loadAux rest cn cur acc := rfl

theorem loadAux_blocks (bs : List StoreBlock) (hbs : blocksWF bs = true)
    (pend : Option StoreBlock)
    (hpend : ∀ pb, pend = some pb → blockWF pb = true)
    (acc : List (String × AccountConfig)) :
    loadAux ((bs.map blockLinesC).flatten ++ [[]]) (pendName pend)
        (pendCur pend) acc =
      some (bs.foldl (fun m b => dInsert m b.name (blockCfg b))
        (commitAcc pend acc)) := by
  induction bs generalizing pend acc with
  | nil =>
    simp only [List.map_nil, List.flatten_nil, List.nil_append, List.foldl_nil]
    rw [loadAux_blank, loadAux]
    exact commitBlock_pend pend hpend acc
  | cons b bs' ih =>
    obtain ⟨hb, hbs'⟩ := blocksWF_cons hbs
    have hall : b.kvs.all kvWF = true :=
      List.all_eq_true.2 (blockWF_fields hb).2.2
    have hs := pyStripC_headerLine b.name.data
    have hne := headerLine_ne_nil b.name.data
    have hih := isHeaderLine_render b.name.data
    have hnm := headerName_render b.name.data
    have hcp := commitBlock_pend pend hpend acc
    simp only [List.append_assoc] at hs hne hih hnm
    simp only [List.map_cons, List.flatten_cons]
    unfold blockLinesC
    simp only [List.cons_append, List.append_assoc, List.nil_append]
    rw [loadAux]
    simp only [hs, hne, hih, hnm, hcp, ite_true, ite_false, if_false, if_true,
      eq_self_iff_true, not_false_eq_true]
    rw [loadAux_kvs b.kvs hall]
    rw [loadAux_blank, List.foldl_cons]
    exact ih hbs' (some b)
      (fun pb e => by injection e with e1; rw [← e1]; exact hb)
      (commitAcc pend acc)
theorem nl_not_mem_blockLines {bs : List StoreBlock} (hbs : blocksWF bs = true) :
    ∀ l ∈ (bs.map blockLinesC).flatten, '\n' ∉ l := by
  intro l hl
  rw [List.mem_flatten] at hl
  obtain ⟨lines, hlines, hmem⟩ := hl
  rw [List.mem_map] at hlines
  obtain ⟨b, hbm, rfl⟩ := hlines
  have hbwf : blockWF b = true := by
    unfold blocksWF at hbs
    exact List.all_eq_true.1 hbs b hbm
  unfold blockLinesC at hmem
  rcases List.mem_cons.1 hmem with rfl | hmem2
  · intro hnl
    rcases List.mem_append.1 hnl with h1 | h1
    · rcases List.mem_append.1 h1 with h2 | h2
      · exact absurd h2 (by decide)
      · have hn := (blockWF_fields hbwf).2.1
        unfold noNL at hn
        exact (of_decide_eq_true hn) h2
    · exact absurd h1 (by decide)
  · rcases List.mem_append.1 hmem2 with hkv | hblank
    · rw [List.mem_map] at hkv
      obtain ⟨kv, hkvm, rfl⟩ := hkv
      intro hnl
      unfold kvLineC at hnl
      have hkwf := (blockWF_fields hbwf).2.2 kv hkvm
      rcases List.mem_append.1 hnl with h1 | h1
      · have hkey := (kvWF_fields hkwf).1
        obtain ⟨_, _, _, _, _, _, hknl, _, _⟩ := allowedKey_shape hkey
        exact hknl h1
      · rcases List.mem_cons.1 h1 with he | h2
        · cases he
        · have hn := (kvWF_fields hkwf).2.1
          unfold noNL at hn
          exact (of_decide_eq_true hn) h2
    · rw [List.mem_singleton] at hblank
      subst hblank
      simp

theorem load_renderBlocks {bs : List StoreBlock} (hbs : blocksWF bs = true) :
    load_all_accounts (renderBlocks bs) = some (loadBlocksResult bs) := by
  unfold load_all_accounts renderBlocks loadBlocksResult
  rw [show (String.mk ((((bs.map blockLinesC).flatten).map
      (fun l => l ++ ['\n'])).flatten)).data =
      (((bs.map blockLinesC).flatten).map (fun l => l ++ ['\n'])).flatten from rfl]
  rw [splitCh_flatten_lines (nl_not_mem_blockLines hbs)]
  exact loadAux_blocks bs hbs none (fun pb e => by cases e) []

theorem loadBlocksResult_entries {bs : List StoreBlock}
    (hbs : blocksWF bs = true) {p : String × AccountConfig}
    (hp : p ∈ loadBlocksResult bs) :
    ∃ b ∈ bs, blockWF b = true ∧ p = (b.name, blockCfg b) := by
  unfold loadBlocksResult at hp
  have h := @mem_foldl_dInsert AccountConfig StoreBlock
    (fun b : StoreBlock => b.name) blockCfg bs [] p hp
  rcases h with h | ⟨b, hbm, he⟩
  · cases h
  · refine ⟨b, hbm, ?_, he⟩
    unfold blocksWF at hbs
    exact List.all_eq_true.1 hbs b hbm

theorem loadBlocksResult_nodup (bs : List StoreBlock) :
    (dKeys (loadBlocksResult bs)).Nodup := by
  unfold loadBlocksResult
  exact nodup_dKeys_foldl_dInsert (f := fun b : StoreBlock => b.name)
    (g := blockCfg) bs (by simp [dKeys])

theorem saveAccountC_eq (a : AccountConfig) :
    saveAccountC a = ((blockLinesC (acctBlock a)).map
      (fun l => l ++ ['\n'])).flatten := by
  unfold saveAccountC blockLinesC acctBlock AccountConfig.to_dict
  simp [kvLineC, List.filter, List.append_assoc]

theorem save_eq_render (m : List (String × AccountConfig)) :
    save_all_accounts m = renderBlocks (m.map (fun p => acctBlock p.2)) := by
  unfold save_all_accounts renderBlocks
  congr 1
  induction m with
  | nil => rfl
  | cons p ps ih =>
    simp only [List.map_cons, List.flatten_cons, List.map_append,
      List.flatten_append]
    rw [ih, saveAccountC_eq]

theorem noNL_intToStr (i : Int) : noNL (String.mk (intToStr i)) = true := by
  unfold noNL
  rw [decide_eq_true_eq]
  exact nl_not_mem_intToStr i

theorem pyStrip_intToStr (i : Int) :
    pyStrip (String.mk (intToStr i)) = String.mk (intToStr i) := by
  unfold pyStrip
  rw [show (String.mk (intToStr i)).data = intToStr i from rfl, pyStripC_intToStr]

theorem portValOK_intToStr (i : Int) :
    portValOK (pyStrip (String.mk (intToStr i))) = true := by
  rw [pyStrip_intToStr]
  unfold portValOK
  rw [Bool.or_eq_true]
  right
  rw [show (String.mk (intToStr i)).data = intToStr i from rfl,
    pyParseInt_intToStr]
  rfl

theorem kvWF_mk {k v : String} (hk : k ∈ allowedKeys) (hnl : noNL v = true)
    (hport : (k = "imap_port" ∨ k = "smtp_port") →
      portValOK (pyStrip v) = true) :
    kvWF (k, v) = true := by
  unfold kvWF
  rw [Bool.and_eq_true, Bool.and_eq_true]
  refine ⟨⟨decide_eq_true hk, hnl⟩, ?_⟩
  rw [Bool.or_eq_true]
  by_cases h : k = "imap_port" ∨ k = "smtp_port"
  · exact Or.inr (hport h)
  · left
    rw [not_or] at h
    simp [h.1, h.2]

theorem acctBlock_kvs (a : AccountConfig) :
    (acctBlock a).kvs = [("email", a.email), ("password", a.password),
      ("imap_server", a.imap_server),
      ("imap_port", String.mk (intToStr a.imap_port)),
      ("smtp_server", a.smtp_server),
      ("smtp_port", String.mk (intToStr a.smtp_port))] := by
  unfold acctBlock AccountConfig.to_dict
  simp [List.filter]

theorem acctBlock_wf {p : String × AccountConfig} (h : AcctInv p) :
    blockWF (acctBlock p.2) = true := by
  obtain ⟨hname, hne, hnl, he, hpw, his, hss⟩ := h
  unfold blockWF
  rw [Bool.and_eq_true, Bool.and_eq_true]
  refine ⟨⟨?_, ?_⟩, ?_⟩
  · apply decide_eq_true
    show p.2.name ≠ ""
    rw [hname]
    exact hne
  · show noNL p.2.name = true
    rw [hname]
    exact hnl
  · rw [acctBlock_kvs]
    apply List.all_eq_true.2
    intro kv hkv
    simp only [List.mem_cons, List.not_mem_nil, or_false] at hkv
    rcases hkv with rfl | rfl | rfl | rfl | rfl | rfl
    · exact kvWF_mk (by decide) he.2 (by rintro (h | h) <;> exact absurd h (by decide))
    · exact kvWF_mk (by decide) hpw.2 (by rintro (h | h) <;> exact absurd h (by decide))
    · exact kvWF_mk (by decide) his.2 (by rintro (h | h) <;> exact absurd h (by decide))
    · exact kvWF_mk (by decide) (noNL_intToStr p.2.imap_port)
        (fun _ => portValOK_intToStr p.2.imap_port)
    · exact kvWF_mk (by decide) hss.2 (by rintro (h | h) <;> exact absurd h (by decide))
    · exact kvWF_mk (by decide) (noNL_intToStr p.2.smtp_port)
        (fun _ => portValOK_intToStr p.2.smtp_port)

theorem mk_intToStr_ne_empty (i : Int) : String.mk (intToStr i) ≠ "" := by
  intro e
  exact intToStr_ne_nil i (congrArg String.data e)

theorem parsePort_mk_intToStr (i : Int) (d : Int) :
    AccountConfig.parsePort (String.mk (intToStr i)) d = some i := by
  unfold AccountConfig.parsePort
  rw [if_neg (mk_intToStr_ne_empty i)]
  exact pyParseInt_intToStr i

theorem blockCfg_acctBlock {p : String × AccountConfig} (h : AcctInv p) :
    blockCfg (acctBlock p.2) = p.2 := by
  obtain ⟨k, a⟩ := p
  obtain ⟨nm, em, pw, isv, ip, ss, sp⟩ := a
  obtain ⟨hname, hne, hnl, he, hpw, his, hss⟩ := h
  simp only at hname he hpw his hss
  have h1 : pyStrip "email" = "email" := by decide
  have h2 : pyStrip "password" = "password" := by decide
  have h3 : pyStrip "imap_server" = "imap_server" := by decide
  have h4 : pyStrip "imap_port" = "imap_port" := by decide
  have h5 : pyStrip "smtp_server" = "smtp_server" := by decide
  have h6 : pyStrip "smtp_port" = "smtp_port" := by decide
  have hcur : curOf (acctBlock (AccountConfig.mk nm em pw isv ip ss sp)) =
      [("name", nm),
      ("email", pyStrip em), ("password", pyStrip pw),
      ("imap_server", pyStrip isv),
      ("imap_port", pyStrip (String.mk (intToStr ip))),
      ("smtp_server", pyStrip ss),
      ("smtp_port", pyStrip (String.mk (intToStr sp)))] := by
    unfold curOf
    rw [acctBlock_kvs]
    simp only [List.foldl_cons, List.foldl_nil, h1, h2, h3, h4, h5, h6]
    simp [dInsert, acctBlock]
  unfold blockCfg
  rw [hcur]
  unfold AccountConfig.from_dict
  have hg1 : dGet [("name", nm),
      ("email", pyStrip em), ("password", pyStrip pw),
      ("imap_server", pyStrip isv),
      ("imap_port", pyStrip (String.mk (intToStr ip))),
      ("smtp_server", pyStrip ss),
      ("smtp_port", pyStrip (String.mk (intToStr sp)))]
      "imap_port" "993" = pyStrip (String.mk (intToStr ip)) := by
    simp [dGet, dLookup]
  have hg2 : dGet [("name", nm),
      ("email", pyStrip em), ("password", pyStrip pw),
      ("imap_server", pyStrip isv),
      ("imap_port", pyStrip (String.mk (intToStr ip))),
      ("smtp_server", pyStrip ss),
      ("smtp_port", pyStrip (String.mk (intToStr sp)))]
      "smtp_port" "587" = pyStrip (String.mk (intToStr sp)) := by
    simp [dGet, dLookup]
  rw [hg1, hg2, pyStrip_intToStr, pyStrip_intToStr, parsePort_mk_intToStr,
    parsePort_mk_intToStr]
  simp [dGet, dLookup, he.1, hpw.1, his.1, hss.1, hname, Option.bind, Option.map]

theorem loadBlocksResult_AcctInv {bs : List StoreBlock}
    (hbs : blocksWF bs = true) : ∀ p ∈ loadBlocksResult bs, AcctInv p := by
  intro p hp
  obtain ⟨b, _, hbwf, rfl⟩ := loadBlocksResult_entries hbs hp
  obtain ⟨_, hname, he, hpw, his, hss, _, _⟩ := from_dict_curOf hbwf
  obtain ⟨hne, hnl, _⟩ := blockWF_fields hbwf
  exact ⟨hname, hne, hnl, he, hpw, his, hss⟩

theorem load_save_load {m : List (String × AccountConfig)}
    (hinv : ∀ p ∈ m, AcctInv p) (hnd : (dKeys m).Nodup) :
    load_all_accounts (save_all_accounts m) = some m := by
  rw [save_eq_render]
  have hwf : blocksWF (m.map (fun p => acctBlock p.2)) = true := by
    apply List.all_eq_true.2
    intro b hb
    rw [List.mem_map] at hb
    obtain ⟨p, hp, rfl⟩ := hb
    exact acctBlock_wf (hinv p hp)
  rw [load_renderBlocks hwf]
  congr 1
  unfold loadBlocksResult
  have hfold : ∀ (l : List (String × AccountConfig))
      (d0 : List (String × AccountConfig)), (∀ p ∈ l, AcctInv p) →
      (l.map (fun p => acctBlock p.2)).foldl
        (fun d b => dInsert d b.name (blockCfg b)) d0 =
      l.foldl (fun d p => dInsert d p.1 p.2) d0 := by
    intro l
    induction l with
    | nil => exact fun d0 _ => rfl
    | cons p ps ih =>
      intro d0 hin
      simp only [List.map_cons, List.foldl_cons]
      have h1 : (acctBlock p.2).name = p.1 := by
        show p.2.name = p.1
        exact (hin p (List.mem_cons_self p ps)).1
      rw [h1, blockCfg_acctBlock (hin p (List.mem_cons_self p ps))]
      exact ih _ (fun q hq => hin q (List.mem_cons_of_mem p hq))
  rw [hfold m [] hinv, foldl_dInsert_of_fresh (by simp [dKeys]) hnd]
  rfl

/-! ## Helper lemmas: the fetch loop of on_refresh -/

theorem fetchLoop_spec (dec : Decoder) (hdec : HeaderDecoder) (b : ImapBehavior)
    (ids : List Nat) (hnb : ∀ i ∈ ids, fetchBare b i = false) :
    fetchLoop dec hdec b ids =
      (ids.map ImapEv.fetchMsg, ids.filterMap (fetchOutcome dec hdec b),
        false) := by
  induction ids with
  | nil => rfl
  | cons i rest ih =>
    have hnbr : ∀ j ∈ rest, fetchBare b j = false :=
      fun j hj => hnb j (List.mem_cons_of_mem _ hj)
    have hnbi := hnb i (List.mem_cons_self i rest)
    rw [fetchLoop, ih hnbr]
    by_cases hst : (b.fetch i).status ≠ "OK"
    · rw [if_pos hst]
      have ho : fetchOutcome dec hdec b i = none := by
        unfold fetchOutcome
        rw [if_pos hst]
      simp [List.filterMap_cons, ho]
    · rw [if_neg hst]
      cases hh : (b.fetch i).data.head? with
      | none =>
        have ho : fetchOutcome dec hdec b i = none := by
          unfold fetchOutcome
          rw [if_neg hst, hh]
        simp [List.filterMap_cons, ho]
      | some o =>
        cases o with
        | none =>
          have ho : fetchOutcome dec hdec b i = none := by
            unfold fetchOutcome
            rw [if_neg hst, hh]
          simp [List.filterMap_cons, ho]
        | some item =>
          cases item with
          | pair hs content =>
            have ho : fetchOutcome dec hdec b i =
                some (buildMsg dec hdec i hs content) := by
              unfold fetchOutcome
              rw [if_neg hst, hh]
            simp [List.filterMap_cons, ho]
          | bare =>
            exfalso
            unfold fetchBare at hnbi
            rw [hh] at hnbi
            have hok : (b.fetch i).status = "OK" := not_not.1 hst
            rw [hok] at hnbi
            simp at hnbi

theorem fetchLoop_abort (dec : Decoder) (hdec : HeaderDecoder)
    (b : ImapBehavior) (ids : List Nat)
    (h : ∃ i ∈ ids, fetchBare b i = true) :
    (fetchLoop dec hdec b ids).2.2 = true := by
  induction ids with
  | nil =>
    obtain ⟨i, hi, _⟩ := h
    cases hi
  | cons i rest ih =>
    obtain ⟨j, hj, hbj⟩ := h
    rcases List.mem_cons.1 hj with rfl | hjr
    · have hok : (b.fetch j).status = "OK" := by
        unfold fetchBare at hbj
        rw [Bool.and_eq_true] at hbj
        simpa using hbj.1
      have hst : ¬ ((b.fetch j).status ≠ "OK") := fun hc => hc hok
      have hh : (b.fetch j).data.head? = some (some FetchItem.bare) := by
        unfold fetchBare at hbj
        rw [Bool.and_eq_true] at hbj
        have h2 := hbj.2
        cases hh : (b.fetch j).data.head? with
        | none => rw [hh] at h2; cases h2
        | some o =>
          cases o with
          | none => rw [hh] at h2; cases h2
          | some item =>
            cases item with
            | pair hs content => rw [hh] at h2; cases h2
            | bare => rfl
      rw [fetchLoop, if_neg hst, hh]
    · have hrest : (fetchLoop dec hdec b rest).2.2 = true := ih ⟨j, hjr, hbj⟩
      rw [fetchLoop]
      by_cases hst : (b.fetch i).status ≠ "OK"
      · rw [if_pos hst]
        exact hrest
      · rw [if_neg hst]
        cases hh : (b.fetch i).data.head? with
        | none => exact hrest
        | some o =>
          cases o with
          | none => exact hrest
          | some item =>
            cases item with
            | pair hs content => exact hrest
            | bare => rfl

theorem fetchLoop_events (dec : Decoder) (hdec : HeaderDecoder)
    (b : ImapBehavior) (ids : List Nat) :
    ∀ ev ∈ (fetchLoop dec hdec b ids).1, ∃ i ∈ ids, ev = ImapEv.fetchMsg i := by
  induction ids with
  | nil =>
    intro ev hev
    cases hev
  | cons i rest ih =>
    intro ev hev
    rw [fetchLoop] at hev
    by_cases hst : (b.fetch i).status ≠ "OK"
    · rw [if_pos hst] at hev
      have hev' : ev ∈ ImapEv.fetchMsg i :: (fetchLoop dec hdec b rest).1 := hev
      rcases List.mem_cons.1 hev' with rfl | hm
      · exact ⟨i, List.mem_cons_self i rest, rfl⟩
      · obtain ⟨j, hj, he⟩ := ih ev hm
        exact ⟨j, List.mem_cons_of_mem i hj, he⟩
    · rw [if_neg hst] at hev
      cases hh : (b.fetch i).data.head? with
      | none =>
        rw [hh] at hev
        have hev' : ev ∈ ImapEv.fetchMsg i :: (fetchLoop dec hdec b rest).1 := hev
        rcases List.mem_cons.1 hev' with rfl | hm
        · exact ⟨i, List.mem_cons_self i rest, rfl⟩
        · obtain ⟨j, hj, he⟩ := ih ev hm
          exact ⟨j, List.mem_cons_of_mem i hj, he⟩
      | some o =>
        cases o with
        | none =>
          rw [hh] at hev
          have hev' : ev ∈ ImapEv.fetchMsg i :: (fetchLoop dec hdec b rest).1 := hev
          rcases List.mem_cons.1 hev' with rfl | hm
          · exact ⟨i, List.mem_cons_self i rest, rfl⟩
          · obtain ⟨j, hj, he⟩ := ih ev hm
            exact ⟨j, List.mem_cons_of_mem i hj, he⟩
        | some item =>
          cases item with
          | pair hs content =>
            rw [hh] at hev
            have hev' : ev ∈ ImapEv.fetchMsg i ::
                (fetchLoop dec hdec b rest).1 := hev
            rcases List.mem_cons.1 hev' with rfl | hm
            · exact ⟨i, List.mem_cons_self i rest, rfl⟩
            · obtain ⟨j, hj, he⟩ := ih ev hm
              exact ⟨j, List.mem_cons_of_mem i hj, he⟩
          | bare =>
            rw [hh] at hev
            have hev' : ev ∈ [ImapEv.fetchMsg i] := hev
            rw [List.mem_singleton.1 hev']
            exact ⟨i, List.mem_cons_self i rest, rfl⟩

/-! ## Claims about the account store -/

/-- C5: for every well-formed store file, applying save_all_accounts to
the mapping that load_all_accounts produced and loading again yields the
same mapping: the same set of account names with the same field values
for each account, port integers preserved. -/
theorem C5_roundtrip (f : String) (m : List (String × AccountConfig))
    (hwf : WellFormedStore f) (h : load_all_accounts f = some m) :
    load_all_accounts (save_all_accounts m) = some m := by
  obtain ⟨bs, hbs, rfl⟩ := hwf
  rw [load_renderBlocks hbs] at h
  injection h with h1
  subst h1
  exact load_save_load (loadBlocksResult_AcctInv hbs) (loadBlocksResult_nodup bs)

/-- Witness for C5 at a concrete one-account store file. -/
theorem C5_roundtrip_witness :
    load_all_accounts (save_all_accounts
      [("a", { name := "a", email := "e@x", password := "", imap_server := "",
               imap_port := 143, smtp_server := "", smtp_port := 587 })]) =
      some [("a", { name := "a", email := "e@x", password := "",
                    imap_server := "", imap_port := 143, smtp_server := "",
                    smtp_port := 587 })] :=
  C5_roundtrip
    (renderBlocks
      [{ name := "a", kvs := [("email", "e@x"), ("imap_port", "143")] }])
    [("a", { name := "a", email := "e@x", password := "", imap_server := "",
             imap_port := 143, smtp_server := "", smtp_port := 587 })]
    ⟨[{ name := "a", kvs := [("email", "e@x"), ("imap_port", "143")] }],
      by decide, rfl⟩
    (by decide)

/-- C10: when a store file contains two or more account blocks with the
same section-header name, load_all_accounts succeeds and binds that name
to the configuration parsed from the last such block; earlier same-named
blocks are silently overwritten rather than reported as an error. -/
theorem C10_duplicate_name_last_wins (bs : List StoreBlock) (n : String)
    (b : StoreBlock) (hbs : blocksWF bs = true)
    (_hdup : 2 ≤ (bs.filter (fun x => x.name == n)).length)
    (hlast : bs.reverse.find? (fun x => x.name == n) = some b) :
    ∃ m, load_all_accounts (renderBlocks bs) = some m ∧
      dLookup n m = some (blockCfg b) := by
  refine ⟨loadBlocksResult bs, load_renderBlocks hbs, ?_⟩
  have h := dLookup_foldl_dInsert (fun x : StoreBlock => x.name) blockCfg bs [] n
  rw [hlast] at h
  exact h

/-- Witness for C10 at a store file with two blocks named dup. -/
theorem C10_duplicate_witness :
    ∃ m, load_all_accounts (renderBlocks
      [{ name := "dup", kvs := [("email", "first@x")] },
       { name := "dup", kvs := [("email", "second@x")] }]) = some m ∧
      dLookup "dup" m =
        some (blockCfg { name := "dup", kvs := [("email", "second@x")] }) :=
  C10_duplicate_name_last_wins _ "dup" _ (by decide) (by decide) (by decide)

/-- C1 counterexample: a store file whose account block carries the
non-decimal port value abc makes load_all_accounts fail as a whole (the
int() call raises ValueError), instead of loading the account with the
default port 993 as the claim states. -/
theorem C1_counterexample :
    load_all_accounts "[account a]\nemail=e@x\nimap_port=abc\n" = none := by
  decide

/-- C1 amended: load_all_accounts succeeds on every well-formed store
file, and an account block whose imap_port (smtp_port) key is missing or
carries an empty value yields the default 993 (587); but a present
non-empty port value that is not a decimal integer fails the whole load,
as the counterexample shows. -/
theorem C1_port_defaults (bs : List StoreBlock) (hbs : blocksWF bs = true) :
    load_all_accounts (renderBlocks bs) = some (loadBlocksResult bs) ∧
    ∀ b ∈ bs,
      ((∀ kv ∈ b.kvs, kv.1 = "imap_port" → pyStrip kv.2 = "") →
        (blockCfg b).imap_port = 993) ∧
      ((∀ kv ∈ b.kvs, kv.1 = "smtp_port" → pyStrip kv.2 = "") →
        (blockCfg b).smtp_port = 587) := by
  refine ⟨load_renderBlocks hbs, fun b hbm => ?_⟩
  have hbwf : blockWF b = true := by
    unfold blocksWF at hbs
    exact List.all_eq_true.1 hbs b hbm
  obtain ⟨_, _, _, _, _, _, hip, hsp⟩ := from_dict_curOf hbwf
  constructor
  · intro hcond
    rcases dGet_curOf_field hbwf
        (show ("imap_port" : String) ≠ "name" by decide) "993" with
      hg | ⟨kv, hkv, hkey, hg⟩
    · rw [hg, show AccountConfig.parsePort "993" 993 = some 993 from by decide]
        at hip
      injection hip with hipv
      exact hipv.symm
    · rw [hg, hcond kv hkv hkey,
        show AccountConfig.parsePort "" 993 = some 993 from by decide] at hip
      injection hip with hipv
      exact hipv.symm
  · intro hcond
    rcases dGet_curOf_field hbwf
        (show ("smtp_port" : String) ≠ "name" by decide) "587" with
      hg | ⟨kv, hkv, hkey, hg⟩
    · rw [hg, show AccountConfig.parsePort "587" 587 = some 587 from by decide]
        at hsp
      injection hsp with hspv
      exact hspv.symm
    · rw [hg, hcond kv hkv hkey,
        show AccountConfig.parsePort "" 587 = some 587 from by decide] at hsp
      injection hsp with hspv
      exact hspv.symm

/-- Witness for the amended C1 at a block with no port keys. -/
theorem C1_port_defaults_witness :
    load_all_accounts (renderBlocks
      [{ name := "a", kvs := [("email", "e@x")] }]) =
      some (loadBlocksResult [{ name := "a", kvs := [("email", "e@x")] }]) ∧
    (blockCfg { name := "a", kvs := [("email", "e@x")] }).imap_port = 993 ∧
    (blockCfg { name := "a", kvs := [("email", "e@x")] }).smtp_port = 587 := by
  have h := C1_port_defaults [{ name := "a", kvs := [("email", "e@x")] }]
    (by decide)
  refine ⟨h.1, ?_, ?_⟩
  · exact (h.2 _ (List.mem_singleton.2 rfl)).1 (by decide)
  · exact (h.2 _ (List.mem_singleton.2 rfl)).2 (by decide)

theorem fetchOutcome_id {dec : Decoder} {hdec : HeaderDecoder}
    {b : ImapBehavior} {i : Nat} {mg : FetchedMsg}
    (h : fetchOutcome dec hdec b i = some mg) : mg.id = i := by
  unfold fetchOutcome at h
  split at h
  · cases h
  · split at h
    · injection h with he
      rw [← he]
      rfl
    · cases h

theorem filterMap_fetch_map_id (dec : Decoder) (hdec : HeaderDecoder)
    (b : ImapBehavior) (l : List Nat) :
    (l.filterMap (fetchOutcome dec hdec b)).map (fun mg => mg.id) =
      l.filter (fun i => (fetchOutcome dec hdec b i).isSome) := by
  induction l with
  | nil => rfl
  | cons i rest ih =>
    rw [List.filterMap_cons, List.filter_cons]
    cases hf : fetchOutcome dec hdec b i with
    | none => simp [hf, ih]
    | some mg => simp [hf, ih, fetchOutcome_id hf]

theorem filterMap_length_all {α β : Type} (f : α → Option β) (l : List α)
    (h : ∀ i ∈ l, (f i).isSome = true) : (l.filterMap f).length = l.length := by
  induction l with
  | nil => rfl
  | cons i rest ih =>
    rw [List.filterMap_cons]
    cases hf : f i with
    | none =>
      have := h i (List.mem_cons_self i rest)
      rw [hf] at this
      cases this
    | some v =>
      simp only [List.length_cons]
      rw [ih (fun j hj => h j (List.mem_cons_of_mem i hj))]

theorem latest20_length_le (ids : List Nat) : (latest20 ids).length ≤ 20 := by
  unfold latest20
  rw [List.length_drop]
  omega

theorem on_refresh_eq (dec : Decoder) (hdec : HeaderDecoder) (b : ImapBehavior)
    (hl : b.loginOk = true) (hs : b.selectOk = true) (hq : b.searchOk = true)
    (hne : b.ids ≠ []) :
    on_refresh dec hdec b =
      if (fetchLoop dec hdec b (latest20 b.ids).reverse).2.2 then
        ⟨[ImapEv.connect, ImapEv.login, ImapEv.selectInbox, ImapEv.search] ++
          (fetchLoop dec hdec b (latest20 b.ids).reverse).1, none⟩
      else
        ⟨[ImapEv.connect, ImapEv.login, ImapEv.selectInbox, ImapEv.search] ++
          (fetchLoop dec hdec b (latest20 b.ids).reverse).1 ++
          [ImapEv.closeBox, ImapEv.logout],
          some (fetchLoop dec hdec b (latest20 b.ids).reverse).2.1⟩ := by
  unfold on_refresh
  rw [if_neg (by simp [hl]), if_neg (by simp [hs]), if_neg (by simp [hq]),
    if_neg hne]

theorem setName_self {a : AccountConfig} {n : String} (h : a.name = n) :
    { a with name := n } = a := by
  obtain ⟨nm, em, pw, isv, ip, ss, sp⟩ := a
  simp only at h
  subst h
  rfl

/-! ## Claims about the IMAP refresh -/

/-- C2 counterexample: a refresh whose IMAP login is rejected raises out
of the handler without closing the mailbox and without logging out: the
trace of the session ends right after the login attempt and contains
neither a CLOSE nor a LOGOUT event, refuting the claim that every
session-establishing execution releases its resources on error paths. -/
theorem C2_counterexample :
    (on_refresh stdDecode (fun v => v.getD "")
        { loginOk := false, selectOk := true, searchOk := true, ids := [],
          fetch := fun _ => { status := "OK", data := [] } }).events =
      [ImapEv.connect, ImapEv.login] ∧
    ImapEv.closeBox ∉ (on_refresh stdDecode (fun v => v.getD "")
        { loginOk := false, selectOk := true, searchOk := true, ids := [],
          fetch := fun _ => { status := "OK", data := [] } }).events ∧
    ImapEv.logout ∉ (on_refresh stdDecode (fun v => v.getD "")
        { loginOk := false, selectOk := true, searchOk := true, ids := [],
          fetch := fun _ => { status := "OK", data := [] } }).events := by
  decide

/-- C2 amended: on_refresh closes the mailbox and logs out before
returning on the success path and on the empty-inbox path, but on the
error paths (authentication failure, SELECT failure, SEARCH failure, or
an exception raised mid-fetch) the session is left neither closed nor
logged out. -/
theorem C2_session_release (dec : Decoder) (hdec : HeaderDecoder)
    (b : ImapBehavior) :
    (b.loginOk = true → b.selectOk = true → b.searchOk = true →
      (fetchLoop dec hdec b (latest20 b.ids).reverse).2.2 = false →
      ∃ t, (on_refresh dec hdec b).events =
        t ++ [ImapEv.closeBox, ImapEv.logout]) ∧
    (b.loginOk = false →
      (on_refresh dec hdec b).events = [ImapEv.connect, ImapEv.login]) ∧
    (b.loginOk = true → b.selectOk = false →
      (on_refresh dec hdec b).events =
        [ImapEv.connect, ImapEv.login, ImapEv.selectInbox]) ∧
    (b.loginOk = true → b.selectOk = true → b.searchOk = false →
      (on_refresh dec hdec b).events =
        [ImapEv.connect, ImapEv.login, ImapEv.selectInbox, ImapEv.search]) ∧
    (b.loginOk = true → b.selectOk = true → b.searchOk = true →
      (fetchLoop dec hdec b (latest20 b.ids).reverse).2.2 = true →
      ImapEv.closeBox ∉ (on_refresh dec hdec b).events ∧
      ImapEv.logout ∉ (on_refresh dec hdec b).events) := by
  refine ⟨?_, ?_, ?_, ?_, ?_⟩
  · intro hl hs hq hab
    by_cases hids : b.ids = []
    · refine ⟨[ImapEv.connect, ImapEv.login, ImapEv.selectInbox,
        ImapEv.search], ?_⟩
      unfold on_refresh
      rw [if_neg (by simp [hl]), if_neg (by simp [hs]), if_neg (by simp [hq]),
        if_pos hids]
      rfl
    · rw [on_refresh_eq dec hdec b hl hs hq hids, if_neg (by simp [hab])]
      refine ⟨[ImapEv.connect, ImapEv.login, ImapEv.selectInbox,
        ImapEv.search] ++ (fetchLoop dec hdec b (latest20 b.ids).reverse).1, ?_⟩
      simp [List.append_assoc]
  · intro hl
    unfold on_refresh
    rw [if_pos (by simp [hl])]
  · intro hl hs
    unfold on_refresh
    rw [if_neg (by simp [hl]), if_pos (by simp [hs])]
  · intro hl hs hq
    unfold on_refresh
    rw [if_neg (by simp [hl]), if_neg (by simp [hs]), if_pos (by simp [hq])]
  · intro hl hs hq hab
    have hids : b.ids ≠ [] := by
      intro he
      rw [show (fetchLoop dec hdec b (latest20 b.ids).reverse).2.2 = false from
        by rw [he]; rfl] at hab
      cases hab
    rw [on_refresh_eq dec hdec b hl hs hq hids, if_pos (by simp [hab])]
    constructor
    · intro hmem
      rcases List.mem_append.1 hmem with h1 | h1
      · simp at h1
      · obtain ⟨i, _, he⟩ := fetchLoop_events dec hdec b _ _ h1
        simp at he
    · intro hmem
      rcases List.mem_append.1 hmem with h1 | h1
      · simp at h1
      · obtain ⟨i, _, he⟩ := fetchLoop_events dec hdec b _ _ h1
        simp at he

/-- Witness for the amended C2 on a successful two-message refresh and
on a refresh with a rejected login. -/
theorem C2_session_release_witness :
    (∃ t, (on_refresh stdDecode (fun v => v.getD "")
      { loginOk := true, selectOk := true, searchOk := true, ids := [1, 2],
        fetch := fun _ => { status := "OK", data := [some (FetchItem.pair []
          (EmailPart.single "text/plain" none (some [])))] } }).events =
        t ++ [ImapEv.closeBox, ImapEv.logout]) ∧
    (on_refresh stdDecode (fun v => v.getD "")
      { loginOk := false, selectOk := true, searchOk := true, ids := [],
        fetch := fun _ => { status := "OK", data := [] } }).events =
      [ImapEv.connect, ImapEv.login] :=
  ⟨(C2_session_release stdDecode (fun v => v.getD "")
      { loginOk := true, selectOk := true, searchOk := true, ids := [1, 2],
        fetch := fun _ => { status := "OK", data := [some (FetchItem.pair []
          (EmailPart.single "text/plain" none (some [])))] } }).1
    rfl rfl rfl (by decide),
   (C2_session_release stdDecode (fun v => v.getD "")
      { loginOk := false, selectOk := true, searchOk := true, ids := [],
        fetch := fun _ => { status := "OK", data := [] } }).2.1 rfl⟩

/-- C4 counterexample: with two inbox identifiers, a FETCH reply for the
newer message whose first data element is a bare (non-pair) item makes
the whole refresh fail: the outcome is an error and the older message is
never fetched, refuting the claim that a single bad message never causes
the whole batch to fail. -/
theorem C4_counterexample :
    (on_refresh stdDecode (fun v => v.getD "")
        { loginOk := true, selectOk := true, searchOk := true, ids := [1, 2],
          fetch := fun i =>
            if i = 2 then { status := "OK", data := [some FetchItem.bare] }
            else { status := "OK", data := [some (FetchItem.pair []
              (EmailPart.single "text/plain" none (some [])))] } }).result =
      none ∧
    ImapEv.fetchMsg 1 ∉ (on_refresh stdDecode (fun v => v.getD "")
        { loginOk := true, selectOk := true, searchOk := true, ids := [1, 2],
          fetch := fun i =>
            if i = 2 then { status := "OK", data := [some FetchItem.bare] }
            else { status := "OK", data := [some (FetchItem.pair []
              (EmailPart.single "text/plain" none (some [])))] } }).events := by
  decide

/-- C4 amended: in the fetched slice, an identifier whose FETCH reply has
a non-OK status or absent response data (empty list or a None first
element) is skipped and the remaining identifiers are still fetched; but
a reply whose first data element is present with an unexpected non-pair
shape raises and aborts the whole batch, as the counterexample shows. -/
theorem C4_bad_message_handling (dec : Decoder) (hdec : HeaderDecoder)
    (b : ImapBehavior) (hl : b.loginOk = true) (hs : b.selectOk = true)
    (hq : b.searchOk = true) :
    ((∀ i ∈ (latest20 b.ids).reverse, fetchBare b i = false) →
      (on_refresh dec hdec b).result =
        some (((latest20 b.ids).reverse).filterMap (fetchOutcome dec hdec b))) ∧
    ((∃ i ∈ (latest20 b.ids).reverse, fetchBare b i = true) →
      (on_refresh dec hdec b).result = none) := by
  constructor
  · intro hnb
    by_cases hids : b.ids = []
    · unfold on_refresh
      rw [if_neg (by simp [hl]), if_neg (by simp [hs]), if_neg (by simp [hq]),
        if_pos hids, hids]
      rfl
    · rw [on_refresh_eq dec hdec b hl hs hq hids,
        fetchLoop_spec dec hdec b _ hnb]
      rfl
  · intro hex
    have hids : b.ids ≠ [] := by
      intro he
      obtain ⟨i, hi, _⟩ := hex
      rw [he] at hi
      cases hi
    rw [on_refresh_eq dec hdec b hl hs hq hids,
      if_pos (by simp [fetchLoop_abort dec hdec b _ hex])]

/-- Witness for the amended C4: a refresh in which the FETCH of the
newer message returns a non-OK status still yields the older message. -/
theorem C4_bad_message_witness :
    (on_refresh stdDecode (fun v => v.getD "")
        { loginOk := true, selectOk := true, searchOk := true, ids := [1, 2],
          fetch := fun i =>
            if i = 2 then { status := "NO", data := [] }
            else { status := "OK", data := [some (FetchItem.pair []
              (EmailPart.single "text/plain" none (some [])))] } }).result =
      some [buildMsg stdDecode (fun v => v.getD "") 1 []
        (EmailPart.single "text/plain" none (some []))] := by
  have h := (C4_bad_message_handling stdDecode (fun v => v.getD "")
    { loginOk := true, selectOk := true, searchOk := true, ids := [1, 2],
      fetch := fun i =>
        if i = 2 then { status := "NO", data := [] }
        else { status := "OK", data := [some (FetchItem.pair []
          (EmailPart.single "text/plain" none (some [])))] } }
    rfl rfl rfl).1 (by decide)
  rw [h]
  decide

/-- C6: a refresh over an inbox whose SEARCH returns identifiers in
server order fetches at most the last twenty identifiers, produces the
message sequence over the reverse of that slice (newest first), has
length at most twenty, and for twenty-five identifiers with every fetch
succeeding yields exactly twenty entries; if the identifiers are in
ascending server order the resulting identifiers are strictly
descending. -/
theorem C6_last20_newest_first (dec : Decoder) (hdec : HeaderDecoder)
    (b : ImapBehavior) (hl : b.loginOk = true) (hs : b.selectOk = true)
    (hq : b.searchOk = true)
    (hnb : ∀ i ∈ (latest20 b.ids).reverse, fetchBare b i = false) :
    ∃ msgs, (on_refresh dec hdec b).result = some msgs ∧
      msgs.length ≤ 20 ∧
      msgs.map (fun mg => mg.id) =
        ((latest20 b.ids).reverse).filter
          (fun i => (fetchOutcome dec hdec b i).isSome) ∧
      (∀ ev ∈ (on_refresh dec hdec b).events, ∀ i, ev = ImapEv.fetchMsg i →
        i ∈ latest20 b.ids) ∧
      (b.ids.length = 25 →
        (∀ i ∈ (latest20 b.ids).reverse,
          (fetchOutcome dec hdec b i).isSome = true) →
        msgs.length = 20 ∧
          msgs.map (fun mg => mg.id) = (latest20 b.ids).reverse) ∧
      (List.Pairwise (· < ·) b.ids →
        List.Pairwise (· > ·) (msgs.map (fun mg => mg.id))) := by
  by_cases hids : b.ids = []
  · refine ⟨[], ?_, by simp, ?_, ?_, ?_, by simp⟩
    · unfold on_refresh
      rw [if_neg (by simp [hl]), if_neg (by simp [hs]), if_neg (by simp [hq]),
        if_pos hids]
    · rw [hids]
      rfl
    · intro ev hev i he
      subst he
      unfold on_refresh at hev
      rw [if_neg (by simp [hl]), if_neg (by simp [hs]), if_neg (by simp [hq]),
        if_pos hids] at hev
      simp at hev
    · intro h25
      rw [hids] at h25
      cases h25
  · have hab : (fetchLoop dec hdec b (latest20 b.ids).reverse).2.2 = false := by
      rw [fetchLoop_spec dec hdec b _ hnb]
    have hevs : (fetchLoop dec hdec b (latest20 b.ids).reverse).1 =
        ((latest20 b.ids).reverse).map ImapEv.fetchMsg := by
      rw [fetchLoop_spec dec hdec b _ hnb]
    have hmsgs : (fetchLoop dec hdec b (latest20 b.ids).reverse).2.1 =
        ((latest20 b.ids).reverse).filterMap (fetchOutcome dec hdec b) := by
      rw [fetchLoop_spec dec hdec b _ hnb]
    rw [on_refresh_eq dec hdec b hl hs hq hids, if_neg (by simp [hab])]
    refine ⟨_, rfl, ?_, ?_, ?_, ?_, ?_⟩
    · rw [hmsgs]
      calc (((latest20 b.ids).reverse).filterMap
            (fetchOutcome dec hdec b)).length
          ≤ ((latest20 b.ids).reverse).length :=
            List.length_filterMap_le _ _
        _ = (latest20 b.ids).length := List.length_reverse _
        _ ≤ 20 := latest20_length_le b.ids
    · rw [hmsgs, filterMap_fetch_map_id]
    · intro ev hev i he
      subst he
      simp only at hev
      rcases List.mem_append.1 hev with h1 | h1
      · rcases List.mem_append.1 h1 with h2 | h2
        · simp at h2
        · rw [hevs] at h2
          rw [List.mem_map] at h2
          obtain ⟨j, hj, hje⟩ := h2
          injection hje with hji
          rw [← hji]
          exact List.mem_reverse.1 hj
      · simp at h1
    · intro h25 hall
      constructor
      · rw [hmsgs, filterMap_length_all _ _ hall, List.length_reverse]
        unfold latest20
        rw [List.length_drop, h25]
      · rw [hmsgs, filterMap_fetch_map_id]
        exact List.filter_eq_self.2 (fun i hi => hall i hi)
    · intro hsort
      have h1 : List.Pairwise (· < ·) (latest20 b.ids) :=
        List.Pairwise.sublist (List.drop_sublist _ _) hsort
      have h2 : List.Pairwise (· > ·) ((latest20 b.ids).reverse) :=
        List.pairwise_reverse.2 h1
      rw [hmsgs, filterMap_fetch_map_id]
      exact List.Pairwise.sublist (List.filter_sublist _) h2

/-- Witness for C6: a twenty-five message inbox with every fetch
succeeding yields exactly twenty entries. -/
theorem C6_last20_witness :
    ((on_refresh stdDecode (fun v => v.getD "")
      { loginOk := true, selectOk := true, searchOk := true,
        ids := List.range' 1 25,
        fetch := fun _ => { status := "OK", data := [some (FetchItem.pair []
          (EmailPart.single "text/plain" none (some [])))] } }).result.map
      (fun l => l.length)) = some 20 := by
  obtain ⟨msgs, h1, _, _, _, h25, _⟩ := C6_last20_newest_first stdDecode
    (fun v => v.getD "")
    { loginOk := true, selectOk := true, searchOk := true,
      ids := List.range' 1 25,
      fetch := fun _ => { status := "OK", data := [some (FetchItem.pair []
        (EmailPart.single "text/plain" none (some [])))] } }
    rfl rfl rfl (by decide)
  obtain ⟨hlen, _⟩ := h25 (by decide) (by decide)
  rw [h1, Option.map_some', hlen]

/-! ## Claims about body extraction -/

/-- C3 counterexample: a multipart message with no text/plain part whose
only subpart is a decodable text/html part.  The claim states that the
first decodable part (decoding to X) is returned; the code instead
returns the decode of the first walked element, which is the multipart
container itself with an empty payload, so the result is the empty
string. -/
theorem C3_counterexample :
    extract_plain_text_body stdDecode
      (EmailPart.multi "multipart/alternative" none
        [EmailPart.single "text/html" (some "utf-8")
          (some (asciiBytes "X"))]) = "" ∧
    stdDecode (asciiBytes "X") "utf-8" = some "X" := by
  decide

/-- C3 amended: for a multipart message, _extract_plain_text_body
returns the decoded payload of the first walked part whose declared
content type is exactly text/plain (or the placeholder when that decode
raises); when no such part exists, the fallback loop returns on the
first element of the traversal, which is the multipart container itself,
so the result is the decode of an empty payload with the container
charset (or the placeholder on failure) rather than the first decodable
subpart; a decode failure never propagates to the caller. -/
theorem C3_extract_behavior (dec : Decoder) (ct : String) (cs : Option String)
    (parts : List EmailPart) :
    (∀ p, (walk (EmailPart.multi ct cs parts)).find?
        (fun q => contentTypeOf q == "text/plain") = some p →
      extract_plain_text_body dec (EmailPart.multi ct cs parts) =
        (decodePart dec p).getD "(Could not decode message body.)") ∧
    ((walk (EmailPart.multi ct cs parts)).find?
        (fun q => contentTypeOf q == "text/plain") = none →
      extract_plain_text_body dec (EmailPart.multi ct cs parts) =
        (dec [] (cs.getD "utf-8")).getD "(Could not decode message body.)") := by
  constructor
  · intro p hp
    unfold extract_plain_text_body extractAux
    rw [if_pos (show isMultipart (EmailPart.multi ct cs parts) = true from rfl),
      hp]
  · intro hp
    unfold extract_plain_text_body extractAux
    rw [if_pos (show isMultipart (EmailPart.multi ct cs parts) = true from rfl),
      hp]
    rfl

/-- Witness for the amended C3: the first text/plain part of a two-part
message is returned. -/
theorem C3_extract_witness :
    extract_plain_text_body stdDecode
      (EmailPart.multi "multipart/alternative" none
        [EmailPart.single "text/html" (some "utf-8") (some (asciiBytes "H")),
         EmailPart.single "text/plain" (some "utf-8")
           (some (asciiBytes "P"))]) = "P" := by
  have h := (C3_extract_behavior stdDecode "multipart/alternative" none
    [EmailPart.single "text/html" (some "utf-8") (some (asciiBytes "H")),
     EmailPart.single "text/plain" (some "utf-8") (some (asciiBytes "P"))]).1
    (EmailPart.single "text/plain" (some "utf-8") (some (asciiBytes "P")))
    rfl
  rw [h]
  decide

/-! ## Claims about the SMTP compose flow -/

/-- C7: on_compose trims whitespace from each comma-separated recipient
entry and discards empty entries before sending; the concrete input with
an empty middle entry yields exactly the two addresses, the all-empty
input is rejected before any connection, and in general every sent
recipient list consists of non-empty trimmed entries while a rejected
compose never reaches the connect step. -/
theorem C7_recipient_trimming :
    (on_compose "a@x.com, ,b@x.com").sent = some ["a@x.com", "b@x.com"] ∧
    (on_compose "a@x.com, ,b@x.com").events =
      [SmtpEv.connect, SmtpEv.login,
       SmtpEv.sendmail ["a@x.com", "b@x.com"], SmtpEv.quitEv] ∧
    (on_compose " , ").sent = none ∧
    (on_compose " , ").events = [SmtpEv.errorBox] ∧
    (∀ s rs, (on_compose s).sent = some rs →
      ∀ r ∈ rs, r ≠ "" ∧ pyStrip r = r) ∧
    (∀ s, (on_compose s).sent = none →
      SmtpEv.connect ∉ (on_compose s).events) := by
  have hoc : ∀ s : String, on_compose s =
      if pyStrip s = "" then ⟨[SmtpEv.errorBox], none⟩
      else if ((splitCh ',' (pyStrip s).data).map
          (fun a => String.mk (pyStripC a))).filter (fun a => a ≠ "") = [] then
        ⟨[SmtpEv.errorBox], none⟩
      else ⟨[SmtpEv.connect, SmtpEv.login,
        SmtpEv.sendmail (((splitCh ',' (pyStrip s).data).map
          (fun a => String.mk (pyStripC a))).filter (fun a => a ≠ "")),
        SmtpEv.quitEv],
        some (((splitCh ',' (pyStrip s).data).map
          (fun a => String.mk (pyStripC a))).filter (fun a => a ≠ ""))⟩ :=
    fun s => rfl
  refine ⟨by decide, by decide, by decide, by decide, ?_, ?_⟩
  · intro s rs h r hr
    rw [hoc s] at h
    split at h
    · cases h
    · split at h
      · cases h
      · injection h with he
        subst he
        rw [List.mem_filter] at hr
        obtain ⟨hmem, hne⟩ := hr
        rw [List.mem_map] at hmem
        obtain ⟨a, _, rfl⟩ := hmem
        refine ⟨by simpa using hne, ?_⟩
        unfold pyStrip
        rw [show (String.mk (pyStripC a)).data = pyStripC a from rfl,
          pyStripC_idem]
  · intro s h
    rw [hoc s] at h ⊢
    split at h
    · next ht =>
      rw [if_pos ht]
      intro hm
      simp at hm
    · next ht =>
      rw [if_neg ht]
      split at h
      · next hrc =>
        rw [if_pos hrc]
        intro hm
        simp at hm
      · cases h

/-- Witness for C7: the sent-list members are trimmed and non-empty, and
the rejected compose has no connect event. -/
theorem C7_recipient_witness :
    ("a@x.com" ≠ "" ∧ pyStrip "a@x.com" = "a@x.com") ∧
    SmtpEv.connect ∉ (on_compose " , ").events :=
  ⟨C7_recipient_trimming.2.2.2.2.1 "a@x.com, ,b@x.com" ["a@x.com", "b@x.com"]
    (by decide) "a@x.com" (by decide),
   C7_recipient_trimming.2.2.2.2.2 " , " (by decide)⟩

/-! ## Claims about account management -/

/-- C8: renaming the active account to the name of a different existing
account is rejected: the account dict is left entirely unchanged (same
keys, same stored field data for both accounts) and the active account
keeps its old name. -/
theorem C8_rename_collision_rejected (accounts : List (String × AccountConfig))
    (oldName newName : String) (a0 b0 : AccountConfig)
    (h1 : dLookup oldName accounts = some a0) (h2 : a0.name = oldName)
    (h3 : dLookup newName accounts = some b0) (h4 : newName ≠ oldName)
    (h5 : newName ≠ "") :
    on_edit_active_rename accounts oldName newName = (accounts, oldName) := by
  unfold on_edit_active_rename
  rw [h1]
  simp only
  rw [if_neg h5, if_pos h4]
  have hl : dLookup newName
      (dInsert accounts oldName { a0 with name := newName }) = some b0 := by
    rw [dLookup_dInsert_ne h4]
    exact h3
  rw [hl]
  simp only [Option.isSome_some]
  rw [if_true]
  have hrestore : ({ ({ a0 with name := newName } : AccountConfig) with
      name := oldName } : AccountConfig) = a0 := setName_self h2
  rw [hrestore, dInsert_dInsert, dInsert_of_lookup_self h1]

/-- Witness for C8 on a two-account dict. -/
theorem C8_rename_collision_witness :
    on_edit_active_rename
      [("a", { name := "a", email := "e1", password := "p1",
               imap_server := "i1", imap_port := 993, smtp_server := "s1",
               smtp_port := 587 }),
       ("b", { name := "b", email := "e2", password := "p2",
               imap_server := "i2", imap_port := 143, smtp_server := "s2",
               smtp_port := 25 })] "a" "b" =
      ([("a", { name := "a", email := "e1", password := "p1",
                imap_server := "i1", imap_port := 993, smtp_server := "s1",
                smtp_port := 587 }),
        ("b", { name := "b", email := "e2", password := "p2",
                imap_server := "i2", imap_port := 143, smtp_server := "s2",
                smtp_port := 25 })], "a") :=
  C8_rename_collision_rejected _ "a" "b"
    { name := "a", email := "e1", password := "p1", imap_server := "i1",
      imap_port := 993, smtp_server := "s1", smtp_port := 587 }
    { name := "b", email := "e2", password := "p2", imap_server := "i2",
      imap_port := 143, smtp_server := "s2", smtp_port := 25 }
    (by decide) (by decide) (by decide) (by decide) (by decide)

/-- C9: on_delete_account removes the chosen account from the dict and
persists the store; when the deleted account was active, the manager
moves to the no-active-account state and the cached message list becomes
empty; when it was not active, the active pointer and the cached message
list are unchanged. -/
theorem C9_delete_account (st : ManagerState) (selected : String)
    (hsel : (dLookup selected st.accounts).isSome = true)
    (hnd : (dKeys st.accounts).Nodup) :
    (on_delete_account st selected).savedStore = true ∧
    dLookup selected (on_delete_account st selected).state.accounts = none ∧
    (∀ k, k ≠ selected →
      dLookup k (on_delete_account st selected).state.accounts =
        dLookup k st.accounts) ∧
    (∀ a, st.active = some a → a.name = selected →
      (on_delete_account st selected).state.active = none ∧
      (on_delete_account st selected).state.messages = []) ∧
    (∀ a, st.active = some a → a.name ≠ selected →
      (on_delete_account st selected).state.active = st.active ∧
      (on_delete_account st selected).state.messages = st.messages) := by
  unfold on_delete_account
  rw [if_pos hsel]
  refine ⟨rfl, ?_, ?_, ?_, ?_⟩
  · cases hact : st.active with
    | none =>
      simp only [hact]
      exact dLookup_dRemove_self hnd selected
    | some a =>
      simp only [hact]
      by_cases hn : a.name = selected
      · rw [if_pos (by simpa using hn)]
        exact dLookup_dRemove_self hnd selected
      · rw [if_neg (by simpa using hn)]
        exact dLookup_dRemove_self hnd selected
  · intro k hk
    cases hact : st.active with
    | none =>
      simp only [hact]
      exact dLookup_dRemove_ne hk st.accounts
    | some a =>
      simp only [hact]
      by_cases hn : a.name = selected
      · rw [if_pos (by simpa using hn)]
        exact dLookup_dRemove_ne hk st.accounts
      · rw [if_neg (by simpa using hn)]
        exact dLookup_dRemove_ne hk st.accounts
  · intro a hact hn
    simp only [hact]
    rw [if_pos (by simpa using hn)]
    exact ⟨rfl, rfl⟩
  · intro a hact hn
    simp only [hact]
    rw [if_neg (by simpa using hn)]
    exact ⟨hact, rfl⟩

/-- Witness for C9: deleting the active account of a two-account state
clears the view and removes the entry. -/
theorem C9_delete_account_witness :
    (on_delete_account { accounts := [("a", { name := "a", email := "e1", password := "", imap_server := "", imap_port := 993, smtp_server := "", smtp_port := 587 }), ("b", { name := "b", email := "e2", password := "", imap_server := "", imap_port := 993, smtp_server := "", smtp_port := 587 })], active := some { name := "a", email := "e1", password := "", imap_server := "", imap_port := 993, smtp_server := "", smtp_port := 587 }, messages := [] } "a").state.active = none ∧
    dLookup "a" (on_delete_account { accounts := [("a", { name := "a", email := "e1", password := "", imap_server := "", imap_port := 993, smtp_server := "", smtp_port := 587 }), ("b", { name := "b", email := "e2", password := "", imap_server := "", imap_port := 993, smtp_server := "", smtp_port := 587 })], active := some { name := "a", email := "e1", password := "", imap_server := "", imap_port := 993, smtp_server := "", smtp_port := 587 }, messages := [] } "a").state.accounts = none := by
  have h := C9_delete_account { accounts := [("a", { name := "a", email := "e1", password := "", imap_server := "", imap_port := 993, smtp_server := "", smtp_port := 587 }), ("b", { name := "b", email := "e2", password := "", imap_server := "", imap_port := 993, smtp_server := "", smtp_port := 587 })], active := some { name := "a", email := "e1", password := "", imap_server := "", imap_port := 993, smtp_server := "", smtp_port := 587 }, messages := [] } "a" (by decide) (by decide)
  exact ⟨(h.2.2.2.1 { name := "a", email := "e1", password := "", imap_server := "", imap_port := 993, smtp_server := "", smtp_port := 587 } rfl (by decide)).1, h.2.1⟩

end EmailClient
